import Mathlib

/-!
Verification development for the GLPI computer reservation filter
(`filtering/filter_computers.py`).

The script loads a yaml file of named resource requirements, fetches
computers, disks and reservations from a GLPI instance, and for every
(requirement, computer) pair decides eligibility (reservable flag, CPU
count, core sum, memory sum, optional GPU/NIC model substring, optional
disk list, reservation window conflict).  Eligible pairs are collected in
an `available` table carrying a weight `cpu_weight + core_weight +
memory_weight` (each weight is the ratio available/required), and a
round-based greedy assignment then recommends at most one computer per
requirement.

This file is a shallow embedding of that script.  The HTTP fetches behind
each hypermedia link are modelled by storing the fetched records inside
the link itself (a `Link` value carries the JSON that the script would
retrieve through the link's href).  Python floats are modelled by `ℚ`
(the ratios and comparisons at stake are exact), Python ints by `Int`,
and yaml timestamps by `Int` (only their ordering is used).  Python's
`list.sort` / `sorted` are modelled by `List.insertionSort`, which is
stable and sorts ascending, exactly like CPython's stable sort.  The
function-scoped Python variable `disks_satisfied`, which is only assigned
on some paths, is threaded explicitly as an `Option Bool` (`none` models
"unbound"; reading it unbound raises `NameError`, modelled by `Except`).
-/

deriving instance DecidableEq for Except

namespace FilterComputers

/-- Python's `needle in hay` prefix helper: `charsPre n h` is true iff `n`
is a prefix of `h` (character lists). -/
def charsPre : List Char → List Char → Bool
  | [], _ => true
  | _ :: _, [] => false
  | a :: as, b :: bs => a == b && charsPre as bs

/-- `charsSub n h` is true iff `n` occurs contiguously inside `h`. -/
def charsSub (n : List Char) : List Char → Bool
  | [] => n.isEmpty
  | b :: bs => charsPre n (b :: bs) || charsSub n bs

/-- Python's substring containment `needle in hay` on strings. -/
def hasSub (needle hay : String) : Bool :=
  charsSub needle.toList hay.toList

/-- One record of the list fetched through a computer's `ReservationItem`
link (only the `is_active` field is read). -/
structure ReservationInfo where
  is_active : Bool
deriving DecidableEq

/-- One processor record fetched through an `Item_DeviceProcessor` link
(only `nbcores` is read). -/
structure CpuInfo where
  nbcores : Int
deriving DecidableEq

/-- One memory-module record fetched through an `Item_DeviceMemory` link
(only `size` is read). -/
structure DimmInfo where
  size : Int
deriving DecidableEq

/-- A sub-link of a graphic-card record: its `rel` tag, and the
`designation` field of the record fetched through its href. -/
structure GpuSubLink where
  rel : String
  designation : String
deriving DecidableEq

/-- One graphic-card record fetched through an `Item_DeviceGraphicCard`
link: the script only walks its `links`. -/
structure Gpu where
  links : List GpuSubLink
deriving DecidableEq

/-- A model sub-link of a network-card device record: its `rel` tag and
the `name` of the record fetched through its href. -/
structure NicModelLink where
  rel : String
  name : String
deriving DecidableEq

/-- A sub-link of a network-card record: its `rel` tag and the `links` of
the device record fetched through its href. -/
structure NicDeviceLink where
  rel : String
  links : List NicModelLink
deriving DecidableEq

/-- One network-card record fetched through an `Item_DeviceNetworkCard`
link. -/
structure Nic where
  links : List NicDeviceLink
deriving DecidableEq

/-- A hypermedia link of a computer record.  The constructor encodes the
link's `rel` tag, and the payload holds the records the script would
fetch through the link's href.  `other` stands for any link whose `rel`
the script does not dispatch on. -/
inductive Link where
  | reservationItem (infos : List ReservationInfo)
  | deviceProcessor (cpus : List CpuInfo)
  | deviceMemory (dimms : List DimmInfo)
  | deviceGraphicCard (gpus : List Gpu)
  | deviceNetworkCard (nics : List Nic)
  | other (rel : String)
deriving DecidableEq

/-- A computer record: `id`, `name` and its hypermedia `links`. -/
structure Computer where
  id : Int
  name : String
  links : List Link
deriving DecidableEq

/-- One entry of a requirement's `disks` list: minimum size (`storage`
key) and optional `disk_type` substring. -/
structure DiskReq where
  storage : Int
  disk_type : Option String
deriving DecidableEq

/-- One disk item fetched from GLPI (fields read by `check_disks`). -/
structure Disk where
  itemtype : String
  items_id : Int
  totalsize : Int
  name : String
deriving DecidableEq

/-- The value of one named requirement from the yaml file.  `disks = none`
models the absence of a `"disks"` key; the yaml key `end` is spelled
`end_` because `end` is a Lean keyword. -/
structure ReqData where
  cpu : Int
  cores : Int
  ram : Int
  gpu : Option String
  nic : Option String
  disks : Option (List DiskReq)
  start : Int
  end_ : Int
deriving DecidableEq

/-- One reservation entry as produced by `check_glpi_reservation.py -y`:
a mapping that contains keys of the form `"Computer <id>"` together with
`Begins` and `Ends` bounds.  `computers` lists the computer keys. -/
structure Reservation where
  computers : List String
  begins : Int
  ends : Int
deriving DecidableEq

/-- Python's true division on two ints, as an exact rational.
`Rat.divInt` is used rather than `ℚ`'s `Div` instance only because the
latter is `@[irreducible]`; `qdiv_eq_div` shows they agree. -/
def qdiv (a b : Int) : ℚ := Rat.divInt a b

/-- Addition of two rationals, written through `Rat.divInt` only because
`ℚ`'s `Add` instance is `@[irreducible]`; `qadd_eq_add` shows it is
ordinary addition. -/
def qadd (a b : ℚ) : ℚ :=
  Rat.divInt (a.num * (b.den : Int) + b.num * (a.den : Int)) ((a.den : Int) * (b.den : Int))

theorem qdiv_eq_div (a b : Int) : qdiv a b = (a : ℚ) / (b : ℚ) := by
  rw [qdiv, Rat.divInt_eq_div]

theorem qadd_eq_add (a b : ℚ) : qadd a b = a + b := by
  rw [qadd, ← Rat.divInt_add_divInt _ _ (Int.natCast_ne_zero.mpr a.den_ne_zero)
    (Int.natCast_ne_zero.mpr b.den_ne_zero), Rat.num_divInt_den, Rat.num_divInt_den]

/-- `check_cpus` (source lines 401-417): ratio of processor count to the
required count, `none` when below the requirement. -/
def check_cpus (cpus : List CpuInfo) (req_cpu : Int) : Option ℚ :=
  if (cpus.length : Int) ≥ req_cpu then some (qdiv (cpus.length : Int) req_cpu) else none

/-- `check_cores` (source lines 420-439): ratio of summed `nbcores` to the
required count, `none` when below the requirement. -/
def check_cores (cpus : List CpuInfo) (req_cores : Int) : Option ℚ :=
  let total_cores := cpus.foldl (fun acc cpu => acc + cpu.nbcores) 0
  if total_cores ≥ req_cores then some (qdiv total_cores req_cores) else none

/-- `check_memory` (source lines 442-461): ratio of summed module sizes to
the required amount, `none` when below the requirement. -/
def check_memory (memory : List DimmInfo) (req_memory : Int) : Option ℚ :=
  let total_ram := memory.foldl (fun acc dimm => acc + dimm.size) 0
  if total_ram ≥ req_memory then some (qdiv total_ram req_memory) else none

/-- `check_graphics` (source lines 464-485): true iff some fetched GPU has
a `DeviceGraphicCard` sub-link whose designation contains the requested
substring (the Python function returns `None`, i.e. falsy, otherwise). -/
def check_graphics (graphics : List Gpu) (req_gpu : String) : Bool :=
  graphics.any fun gpu =>
    gpu.links.any fun link =>
      link.rel == "DeviceGraphicCard" && hasSub req_gpu link.designation

/-- `check_network` (source lines 488-514): true iff some fetched NIC
leads through a `DeviceNetworkCard` sub-link and then a
`DeviceNetworkCardModel` sub-link to a non-empty model name containing
the requested substring. -/
def check_network (nics : List Nic) (req_nic : String) : Bool :=
  nics.any fun nic =>
    nic.links.any fun link =>
      link.rel == "DeviceNetworkCard" &&
        link.links.any fun model_link =>
          model_link.rel == "DeviceNetworkCardModel" &&
            (!(model_link.name == "") && hasSub req_nic model_link.name)

/-- `check_computer_reservable` (source lines 555-573): true iff the
fetched reservation-item list is non-empty and contains an active entry
(`any` is false on the empty list, matching the code's falsy check). -/
def check_computer_reservable (infos : List ReservationInfo) : Bool :=
  infos.any (·.is_active)

/-- The inner validity test of `check_disks` (source lines 538-543): the
requirement-disk entry is satisfied by the disk when its minimum size
fits and, when a `disk_type` is given, that type occurs in the disk
name. -/
def diskFits (rd : DiskReq) (d : Disk) : Bool :=
  decide (rd.storage ≤ d.totalsize) &&
    (match rd.disk_type with
     | some t => hasSub t d.name
     | none => true)

/-- Index of the first pending requirement-disk satisfied by the disk:
the `for i in range(len(req_disks))` search of `check_disks`. -/
def findFitIdx (d : Disk) : List DiskReq → Option Nat
  | [] => none
  | rd :: rds => if diskFits rd d then some 0 else (findFitIdx d rds).map (· + 1)

/-- One computer disk consumes (pops) the first fitting pending
requirement-disk, if any (source lines 535-547). -/
def check_disksInner (d : Disk) (rds : List DiskReq) : List DiskReq :=
  match findFitIdx d rds with
  | some i => rds.eraseIdx i
  | none => rds

/-- The outer loop of `check_disks` (source lines 531-547): walk all GLPI
disks, keep the ones owned by this computer, let each consume a pending
requirement-disk. -/
def check_disksGo (computer_id : Int) : List Disk → List DiskReq → List DiskReq
  | [], rds => rds
  | d :: ds, rds =>
    if d.itemtype == "Computer" && d.items_id == computer_id then
      check_disksGo computer_id ds (check_disksInner d rds)
    else
      check_disksGo computer_id ds rds

/-- `check_disks` (source lines 517-552).  The Python function mutates
`req_disks` in place (it pops matched entries), so the embedding returns
both the boolean result and the final state of the list. -/
def check_disks (computer_id : Int) (disks : List Disk) (req_disks : List DiskReq) :
    Bool × List DiskReq :=
  let rem := check_disksGo computer_id disks req_disks
  (rem.isEmpty, rem)

/-- Ordering of requirement-disks by their `storage` key, as used by
`disks_req.sort(key=operator.itemgetter("storage"))`. -/
def dle (a b : DiskReq) : Prop := a.storage ≤ b.storage

instance : DecidableRel dle := fun a b => inferInstanceAs (Decidable (a.storage ≤ b.storage))

instance : IsTotal DiskReq dle := ⟨fun a b => le_total a.storage b.storage⟩

instance : IsTrans DiskReq dle := ⟨fun _ _ _ h h' => le_trans h h'⟩

/-- `disks_req.sort(key=operator.itemgetter("storage"))` (source line
263): stable ascending sort by minimum size. -/
def sortDiskReqs (rds : List DiskReq) : List DiskReq :=
  List.insertionSort dle rds

/-- Python truthiness of the weight variables (`None` or a float). -/
def truthyW : Option ℚ → Bool
  | none => false
  | some w => decide (w ≠ 0)

/-- The result of the link loop of `reservable` (source lines 222-253):
the three weight variables and the two boolean flags. -/
structure LinkOut where
  cw : Option ℚ
  corew : Option ℚ
  mw : Option ℚ
  gpu : Bool
  nic : Bool
deriving DecidableEq

/-- Initial values before the link loop: weights unset, `gpu = nic =
True` (source lines 198-202). -/
def initLinkOut : LinkOut := ⟨none, none, none, true, true⟩

/-- The link loop of `reservable` (source lines 222-253), including the
two `break` statements: a processor link failing both the cpu and core
checks, or a memory link failing the memory check, stops the loop with
the values assigned so far.  GPU/NIC links are checked only when the
requirement requests a model. -/
def linkScan (rdata : ReqData) : List Link → LinkOut → LinkOut
  | [], st => st
  | .reservationItem _ :: ls, st => linkScan rdata ls st
  | .deviceProcessor cpus :: ls, st =>
    if !(truthyW (check_cpus cpus rdata.cpu) || truthyW (check_cores cpus rdata.cores)) then
      ⟨check_cpus cpus rdata.cpu, check_cores cpus rdata.cores, st.mw, st.gpu, st.nic⟩
    else
      linkScan rdata ls ⟨check_cpus cpus rdata.cpu, check_cores cpus rdata.cores, st.mw,
        st.gpu, st.nic⟩
  | .deviceMemory dimms :: ls, st =>
    if !truthyW (check_memory dimms rdata.ram) then
      ⟨st.cw, st.corew, check_memory dimms rdata.ram, st.gpu, st.nic⟩
    else
      linkScan rdata ls ⟨st.cw, st.corew, check_memory dimms rdata.ram, st.gpu, st.nic⟩
  | .deviceGraphicCard gpus :: ls, st =>
    match rdata.gpu with
    | some g => linkScan rdata ls ⟨st.cw, st.corew, st.mw, check_graphics gpus g, st.nic⟩
    | none => linkScan rdata ls st
  | .deviceNetworkCard nics :: ls, st =>
    match rdata.nic with
    | some nm => linkScan rdata ls ⟨st.cw, st.corew, st.mw, st.gpu, check_network nics nm⟩
    | none => linkScan rdata ls st
  | .other _ :: ls, st => linkScan rdata ls st

/-- The first link loop of `reservable` (source lines 216-218): every
`ReservationItem` link overwrites the `computer_reservable` flag. -/
def computer_reservableOf : List Link → Bool → Bool
  | [], b => b
  | .reservationItem infos :: ls, _ => computer_reservableOf ls (check_computer_reservable infos)
  | _ :: ls, b => computer_reservableOf ls b

/-- The reservation-window conflict test of `reservable` (source lines
276-288): some reservation mentions key `"Computer <id>"` and its window
contains the requirement's start or its end. -/
def conflictB (cid : Int) (rdata : ReqData) (reservations : List Reservation) : Bool :=
  reservations.any fun rsv =>
    rsv.computers.contains ("Computer " ++ toString cid) &&
      ((decide (rsv.begins ≤ rdata.start) && decide (rdata.start ≤ rsv.ends)) ||
       (decide (rsv.begins ≤ rdata.end_) && decide (rdata.end_ ≤ rsv.ends)))

/-- One row of `available[requirement]`: the computer id (the dict key)
with its `name` and `total_weight` values. -/
structure AEntry where
  id : Int
  name : String
  weight : ℚ
deriving DecidableEq

/-- The `available` table: requirement name, in dict insertion order,
mapped to its candidate rows in insertion order. -/
abbrev AvailTable := List (String × List AEntry)

/-- Insertion into `available[requirement]` (source lines 291-298): a
fresh id is appended; an existing id has its row overwritten in place
(Python dict assignment). -/
def upsert (entries : List AEntry) (e : AEntry) : List AEntry :=
  if entries.any (fun x => x.id == e.id) then
    entries.map (fun x => if x.id == e.id then e else x)
  else
    entries ++ [e]

/-- The Python exception that ends a run of `reservable`. -/
inductive PyError where
  | nameError
deriving DecidableEq

/-- The `disks` block of the pair body (source lines 261-265): when the
requirement has a `"disks"` key its list is sorted in place, checked,
and the `disks_satisfied` variable is (re)bound; otherwise both keep
their current state. -/
def disksUpdate (cid : Int) (disks : List Disk) (dSat : Option Bool) :
    Option (List DiskReq) → Option Bool × Option (List DiskReq)
  | some dr =>
    (some (check_disks cid disks (sortDiskReqs dr)).1,
      some (check_disks cid disks (sortDiskReqs dr)).2)
  | none => (dSat, none)

/-- The candidate-inclusion test of the pair body (source lines 267-298),
with Python's left-to-right short-circuit: the five check outcomes are
read first, then `disks_satisfied` (a `NameError` when still unbound),
then the reservation-window conflict loop decides the insertion. -/
def includeStep (lo : LinkOut) (rdata : ReqData) (reservations : List Reservation)
    (c : Computer) (dsPair : Option Bool × Option (List DiskReq)) :
    Except PyError (Option AEntry × Option Bool × Option (List DiskReq)) :=
  if truthyW lo.cw && truthyW lo.corew && truthyW lo.mw && lo.gpu && lo.nic then
    match dsPair.1 with
    | none => .error .nameError
    | some ds =>
      if ds then
        if conflictB c.id rdata reservations then .ok (none, dsPair.1, dsPair.2)
        else
          .ok (some ⟨c.id, c.name, qadd (qadd (lo.cw.getD 0) (lo.corew.getD 0)) (lo.mw.getD 0)⟩,
            dsPair.1, dsPair.2)
      else .ok (none, dsPair.1, dsPair.2)
  else .ok (none, dsPair.1, dsPair.2)

/-- The body of the double loop of `reservable` for one (requirement,
computer) pair (source lines 196-298).  `dSat` is the current binding of
the function-scoped variable `disks_satisfied` (`none` = still unbound)
and `curDisks` the current state of the requirement's mutable `disks`
list (`none` = the requirement has no `"disks"` key).  The result is the
row to insert (if any) together with the updated `disks_satisfied`
binding and `disks` list; reading `disks_satisfied` while unbound is the
`NameError`. -/
def processPair (rdata : ReqData) (reservations : List Reservation) (disks : List Disk)
    (c : Computer) (dSat : Option Bool) (curDisks : Option (List DiskReq)) :
    Except PyError (Option AEntry × Option Bool × Option (List DiskReq)) :=
  if !(computer_reservableOf c.links false) then .ok (none, dSat, curDisks)
  else if !(truthyW (linkScan rdata c.links initLinkOut).cw
        || truthyW (linkScan rdata c.links initLinkOut).corew)
      || !truthyW (linkScan rdata c.links initLinkOut).mw then
    .ok (none, dSat, curDisks)
  else
    includeStep (linkScan rdata c.links initLinkOut) rdata reservations c
      (disksUpdate c.id disks dSat curDisks)

/-- The inner computer loop of `reservable` for one requirement,
accumulating that requirement's `available` rows and threading the
function-scoped `disks_satisfied` binding and the requirement's mutable
`disks` list. -/
def scanComputers (rdata : ReqData) (reservations : List Reservation) (disks : List Disk) :
    List Computer → List AEntry → Option Bool → Option (List DiskReq) →
    Except PyError (List AEntry × Option Bool)
  | [], entries, dSat, _ => .ok (entries, dSat)
  | c :: cs, entries, dSat, curDisks =>
    match processPair rdata reservations disks c dSat curDisks with
    | .error e => .error e
    | .ok (oe, dSat', curDisks') =>
      scanComputers rdata reservations disks cs
        (match oe with | none => entries | some e => upsert entries e) dSat' curDisks'

/-- The outer requirement loop of `reservable` (source lines 195-298):
requirements are processed in order; a requirement obtains an entry in
`available` exactly when some computer was inserted for it.  The
`disks_satisfied` binding persists across requirements. -/
def reservableScan (reservations : List Reservation) (computers : List Computer)
    (disks : List Disk) :
    List (String × ReqData) → Option Bool → Except PyError AvailTable
  | [], _ => .ok []
  | (rname, rdata) :: rest, dSat =>
    match scanComputers rdata reservations disks computers [] dSat rdata.disks with
    | .error e => .error e
    | .ok (entries, dSat') =>
      match reservableScan reservations computers disks rest dSat' with
      | .error e => .error e
      | .ok tail => .ok (if entries.isEmpty then tail else (rname, entries) :: tail)

/-- Ordering of candidate rows by `total_weight`, the key function of
`sorted(available[requirement], key=...)`. -/
def wle (a b : AEntry) : Prop := a.weight ≤ b.weight

instance : DecidableRel wle := fun a b => inferInstanceAs (Decidable (a.weight ≤ b.weight))

instance : IsTotal AEntry wle := ⟨fun a b => le_total a.weight b.weight⟩

instance : IsTrans AEntry wle := ⟨fun _ _ _ h h' => le_trans h h'⟩

/-- `sorted_available` (source lines 300-308): each requirement's rows
sorted ascending by weight (Python's `sorted` is stable, as is
`List.insertionSort`). -/
def buildSorted (av : AvailTable) : AvailTable :=
  av.map fun p => (p.1, List.insertionSort wle p.2)

/-- `curr < min` where `min` starts at `float("inf")` (modelled by
`none`). -/
def ltOpt (c : ℚ) : Option ℚ → Bool
  | none => true
  | some m => decide (c < m)

/-- The running state of one assignment round: the running minimum, the
requirement currently picked, and the `limited` flag. -/
structure RoundAcc where
  min : Option ℚ
  pick : Option String
  limited : Bool
deriving DecidableEq

/-- The inner `for j in range(...)` scan of the limited branch (source
lines 325-331): every remaining candidate of the requirement is compared
against the running minimum. -/
def scanList (r : String) (acc : RoundAcc) (es : List AEntry) : RoundAcc :=
  es.foldl (fun a e => if ltOpt e.weight a.min then ⟨some e.weight, some r, a.limited⟩ else a) acc

/-- One requirement's step inside a round (source lines 313-331): while
not limited and the candidate list has an entry strictly after index
`idx`, only the entry at `idx` is compared; otherwise the round becomes
limited (resetting the running minimum on the first limited requirement,
but keeping the current pick) and the whole candidate list is scanned. -/
def roundStep (idx : Nat) (acc : RoundAcc) (p : String × List AEntry) : RoundAcc :=
  if !acc.limited && ((p.2.length : Int) - 1 > (idx : Int)) then
    match p.2[idx]? with
    | some e => if ltOpt e.weight acc.min then ⟨some e.weight, some p.1, acc.limited⟩ else acc
    | none => acc
  else
    scanList p.1 ⟨if acc.limited then acc.min else none, acc.pick, true⟩ p.2

/-- One round's scan over `sorted_available` (source lines 310-331). -/
def roundScan (idx : Nat) (sa : AvailTable) : RoundAcc :=
  sa.foldl (roundStep idx) ⟨none, none, false⟩

/-- State of the assignment loop: the remaining `sorted_available`
table, the taken machines, and the `final_choices` in pick order. -/
structure AssignState where
  sa : AvailTable
  taken : List Int
  final : List (String × Int × String)
deriving DecidableEq

/-- Dictionary lookup in `sorted_available`. -/
def lookupSA (p : String) (sa : AvailTable) : Option (List AEntry) :=
  (sa.find? (fun q => q.1 == p)).map (·.2)

/-- The walk for the first not-yet-taken candidate of the winning
requirement (source lines 333-338). -/
def takeFirst (taken : List Int) : List AEntry → Option AEntry
  | [] => none
  | e :: es => if taken.contains e.id then takeFirst taken es else some e

/-- Applying a round's pick (source lines 332-338): the winning
requirement claims its first untaken candidate, the machine is marked
taken and the requirement removed from `sorted_available`; if every
candidate is already taken nothing happens (no `del` is reached). -/
def applyPick (st : AssignState) : Option String → AssignState
  | none => st
  | some p =>
    match lookupSA p st.sa with
    | none => st
    | some es =>
      match takeFirst st.taken es with
      | none => st
      | some e =>
        ⟨st.sa.eraseP (fun q => q.1 == p), st.taken ++ [e.id], st.final ++ [(p, e.id, e.name)]⟩

/-- The `for index in range(len(requirements))` loop (source lines
309-338), with the current index and remaining round count. -/
def assignGo : Nat → Nat → AssignState → AssignState
  | _, 0, st => st
  | idx, Nat.succ n, st => assignGo (idx + 1) n (applyPick st (roundScan idx st.sa).pick)

/-- The whole assignment phase of `reservable` (source lines 300-339):
sort each requirement's candidates by weight and run
`len(requirements)` rounds. -/
def assignFromAvailable (numReqs : Nat) (av : AvailTable) : AssignState :=
  assignGo 0 numReqs ⟨buildSorted av, [], []⟩

/-- `reservable` (source lines 165-339): the full scan followed by the
assignment phase, returning `available` and `final_choices` (as the list
of (requirement, id, name) decisions in pick order). -/
def reservable (reservations : List Reservation) (computers : List Computer)
    (disks : List Disk) (requirements : List (String × ReqData)) :
    Except PyError (AvailTable × List (String × Int × String)) :=
  match reservableScan reservations computers disks requirements none with
  | .error e => .error e
  | .ok av => .ok (av, (assignFromAvailable requirements.length av).final)

/-- The candidate ids recorded for a requirement in the `available`
table (the empty list when the requirement has no entry). -/
def availIds (av : AvailTable) (rname : String) : List Int :=
  match av.find? (fun p => p.1 == rname) with
  | some p => p.2.map (·.id)
  | none => []

/-- Outcome of running a piece of the script: normal value, `sys.exit`
with a message, or an unhandled exception (nonzero exit, traceback). -/
inductive PyOutcome (α : Type) where
  | ok (a : α)
  | exited (msg : String)
  | unhandled (exc : String)
deriving DecidableEq

/-- A Python value that is either a `str` or an `Exception` instance. -/
inductive PyVal where
  | str (s : String)
  | exc (msg : String)
deriving DecidableEq

/-- The message of the `TypeError` raised by `"..." + e` when `e` is an
exception object. -/
def tyConcatMsg : String := "TypeError: can only concatenate str (not Exception) to str"

/-- Python `+` on a `str` left operand: concatenation when the right
operand is a `str`, `TypeError` when it is an exception object. -/
def pyAdd : PyVal → PyVal → Except String PyVal
  | .str a, .str b => .ok (.str (a ++ b))
  | .str _, .exc _ => .error tyConcatMsg
  | .exc _, _ => .error "TypeError: unsupported operand type(s) for +"

/-- `parse_list` (source lines 87-110): `readResult` models the combined
outcome of `open(list)` plus `yaml.safe_load` (`Except.error e` is the
caught exception).  On failure the handler evaluates
`sys.exit("Can't open or parse " + list + ": " + e)`; the embedded
`pyAdd` chain reproduces the evaluation of that argument. -/
def parse_list (path : String) (readResult : Except String (List (String × ReqData))) :
    PyOutcome (List (String × ReqData)) :=
  match readResult with
  | .ok requirements => .ok requirements
  | .error e =>
    match pyAdd (.str ("Can't open or parse " ++ path ++ ": ")) (.exc e) with
    | .ok (.str m) => .exited m
    | .ok (.exc m) => .unhandled m
    | .error t => .unhandled t

/-- The report printed by `print_final_decision` (source lines 342-396):
per requirement the available candidates (or none), the recommendation
(or none), and the trailing `fulfilled` flag. -/
structure Report where
  availableSection : List (String × Option (List (Int × String)))
  recommendations : List (String × Option (Int × String))
  fulfilled : Bool
deriving DecidableEq

/-- `print_final_decision` (source lines 342-396) as a pure report. -/
def print_final_decision (av : AvailTable) (fc : List (String × Int × String))
    (requirements : List (String × ReqData)) : Report :=
  let avail := requirements.map fun p =>
    (p.1, match av.find? (fun q => q.1 == p.1) with
          | some q => some (q.2.map fun e => (e.id, e.name))
          | none => none)
  let recs := requirements.map fun p =>
    (p.1, match fc.find? (fun q => q.1 == p.1) with
          | some q => some q.2
          | none => none)
  let fulfilled := requirements.all fun p => (fc.find? (fun q => q.1 == p.1)).isSome
  ⟨avail, recs, fulfilled⟩

set_option linter.unusedVariables false in
/-- `main` (source lines 39-84) from argument parsing onwards: `all`
models the parsed `--all` (`-a`) flag, `readResult` the requirements file.
The source parses the flag but never reads `args.all` afterwards, which
the embedding reproduces faithfully. -/
def mainRun (all : Bool) (listPath : String)
    (readResult : Except String (List (String × ReqData)))
    (reservations : List Reservation) (computers : List Computer) (disks : List Disk) :
    PyOutcome Report :=
  match parse_list listPath readResult with
  | .exited m => .exited m
  | .unhandled m => .unhandled m
  | .ok requirements =>
    match reservable reservations computers disks requirements with
    | .error .nameError => .unhandled "NameError: name disks_satisfied is not defined"
    | .ok (av, fc) => .ok (print_final_decision av fc requirements)

/-! ### Concrete fixtures shared by witnesses and counterexamples -/

/-- A requirement asking for 1 cpu, 1 core, 1 MB of memory, with the given
gpu request, disks entry and reservation window. -/
def reqFix (g : Option String) (dk : Option (List DiskReq)) (s e : Int) : ReqData :=
  ⟨1, 1, 1, g, none, dk, s, e⟩

/-- A reservable computer with one 1-core processor and one 1 MB memory
module. -/
def compFix (i : Int) (nm : String) : Computer :=
  ⟨i, nm, [.reservationItem [⟨true⟩], .deviceProcessor [⟨1⟩], .deviceMemory [⟨1⟩]]⟩

/-! ### The disk check is sorted first-fit matching (claim C9) -/

/-- First-fit removal, as the spec words it: the disk consumes the first
still-unsatisfied requirement-disk whose minimum size is at most the
disk's size (with the optional type-substring condition). -/
def popFirstFit (d : Disk) : List DiskReq → Option (List DiskReq)
  | [] => none
  | rd :: rds => if diskFits rd d then some rds else (popFirstFit d rds).map (rd :: ·)

/-- The spec's description of the disk matching loop: each of the
computer's disks, processed in the given order, consumes a pending
requirement-disk when it can. -/
def specConsume (cid : Int) (pending : List DiskReq) : List Disk → List DiskReq
  | [] => pending
  | d :: ds =>
    if d.itemtype == "Computer" && d.items_id == cid then
      specConsume cid ((popFirstFit d pending).getD pending) ds
    else
      specConsume cid pending ds

/-- The spec's pass condition: all requirement-disks consumed. -/
def specDiskPass (cid : Int) (disks : List Disk) (rds : List DiskReq) : Bool :=
  (specConsume cid rds disks).isEmpty

theorem findFit_popFirst (d : Disk) (rds : List DiskReq) :
    (findFitIdx d rds = none ∧ popFirstFit d rds = none) ∨
    ∃ i l, findFitIdx d rds = some i ∧ popFirstFit d rds = some l ∧ rds.eraseIdx i = l := by
  induction rds with
  | nil => exact Or.inl ⟨rfl, rfl⟩
  | cons rd rds ih =>
    by_cases h : diskFits rd d = true
    · exact Or.inr ⟨0, rds, by simp [findFitIdx, h], by simp [popFirstFit, h], rfl⟩
    · rcases ih with ⟨h1, h2⟩ | ⟨i, l, h1, h2, h3⟩
      · exact Or.inl ⟨by simp [findFitIdx, h, h1], by simp [popFirstFit, h, h2]⟩
      · refine Or.inr ⟨i + 1, rd :: l, by simp [findFitIdx, h, h1], by simp [popFirstFit, h, h2], ?_⟩
        simpa [List.eraseIdx] using h3

theorem check_disksInner_eq (d : Disk) (rds : List DiskReq) :
    check_disksInner d rds = (popFirstFit d rds).getD rds := by
  rcases findFit_popFirst d rds with ⟨h1, h2⟩ | ⟨i, l, h1, h2, h3⟩
  · simp [check_disksInner, h1, h2]
  · simp [check_disksInner, h1, h2, h3]

theorem check_disksGo_eq (cid : Int) (ds : List Disk) :
    ∀ rds, check_disksGo cid ds rds = specConsume cid rds ds := by
  induction ds with
  | nil => intro rds; rfl
  | cons d ds ih =>
    intro rds
    by_cases h : (d.itemtype == "Computer" && d.items_id == cid) = true
    · rw [check_disksGo, if_pos h, specConsume, if_pos h, check_disksInner_eq, ih]
    · rw [check_disksGo, if_neg h, specConsume, if_neg h, ih]

/-- Claim C9: when a requirement specifies a disk list, the
requirement-disks are sorted ascending by minimum size, and the disk
check consumes them by first-fit over the computer's disks in the given
order, passing exactly when all requirement-disks are consumed; on the
spec's concrete scenario (requirement-disks with minima 100 and 500,
computer disks of sizes 600 then 150) the 600 disk consumes the 100
entry, the 150 disk cannot satisfy the 500 entry, and the check fails. -/
theorem c9_disk_first_fit :
    (∀ (cid : Int) (disks : List Disk) (rds : List DiskReq),
      check_disks cid disks rds = (specDiskPass cid disks rds, specConsume cid rds disks)) ∧
    (∀ rds : List DiskReq, List.Sorted dle (sortDiskReqs rds)) ∧
    sortDiskReqs [⟨100, none⟩, ⟨500, none⟩] = [⟨100, none⟩, ⟨500, none⟩] ∧
    (check_disks 1 [⟨"Computer", 1, 600, "d600"⟩, ⟨"Computer", 1, 150, "d150"⟩]
        (sortDiskReqs [⟨100, none⟩, ⟨500, none⟩])).1 = false := by
  refine ⟨fun cid disks rds => ?_, fun rds => List.sorted_insertionSort dle rds, by decide, by decide⟩
  rw [check_disks, check_disksGo_eq, specDiskPass]

/-! ### The assignment phase never double-books a machine (claim C1) -/

theorem takeFirst_not_taken :
    ∀ (es : List AEntry) (taken : List Int) (e : AEntry),
      takeFirst taken es = some e → taken.contains e.id = false := by
  intro es
  induction es with
  | nil => intro taken e h; exact absurd h (by simp [takeFirst])
  | cons x xs ih =>
    intro taken e h
    by_cases hc : taken.contains x.id = true
    · rw [takeFirst, if_pos hc] at h
      exact ih taken e h
    · rw [takeFirst, if_neg hc] at h
      cases h
      exact Bool.eq_false_iff.mpr hc

theorem not_mem_of_contains_false {l : List Int} {a : Int} (h : l.contains a = false) :
    a ∉ l := by
  intro hm
  have h' : l.elem a = false := h
  rw [List.elem_eq_true_of_mem hm] at h'
  cases h'

theorem applyPick_inv (st : AssignState) (pk : Option String)
    (h1 : (st.final.map fun t => t.2.1).Nodup)
    (h2 : ∀ i ∈ st.final.map fun t => t.2.1, i ∈ st.taken) :
    ((applyPick st pk).final.map fun t => t.2.1).Nodup ∧
      ∀ i ∈ (applyPick st pk).final.map fun t => t.2.1, i ∈ (applyPick st pk).taken := by
  cases pk with
  | none => exact ⟨h1, h2⟩
  | some p =>
    cases hl : lookupSA p st.sa with
    | none => simp only [applyPick, hl]; exact ⟨h1, h2⟩
    | some es =>
      cases ht : takeFirst st.taken es with
      | none => simp only [applyPick, hl, ht]; exact ⟨h1, h2⟩
      | some e =>
        have hnt : e.id ∉ st.taken :=
          not_mem_of_contains_false (takeFirst_not_taken es st.taken e ht)
        simp only [applyPick, hl, ht]
        constructor
        · rw [List.map_append, List.nodup_append]
          refine ⟨h1, by simp, ?_⟩
          intro a ha hb
          have hae : a = e.id := by simpa using hb
          subst hae
          exact hnt (h2 _ ha)
        · intro i hi
          rw [List.map_append, List.mem_append] at hi
          rcases hi with hi | hi
          · exact List.mem_append.mpr (Or.inl (h2 i hi))
          · rcases (by simpa using hi : i = e.id) with rfl
            simp

theorem assignGo_inv :
    ∀ (n idx : Nat) (st : AssignState),
      (st.final.map fun t => t.2.1).Nodup →
      (∀ i ∈ st.final.map fun t => t.2.1, i ∈ st.taken) →
      ((assignGo idx n st).final.map fun t => t.2.1).Nodup := by
  intro n
  induction n with
  | zero => intro idx st h1 _; exact h1
  | succ n ih =>
    intro idx st h1 h2
    rw [assignGo]
    obtain ⟨h1', h2'⟩ := applyPick_inv st (roundScan idx st.sa).pick h1 h2
    exact ih (idx + 1) _ h1' h2'

/-- Claim C1: the assignment phase of `reservable`, run over any
candidate table, never books the same computer id for two requirements:
the ids recorded in `final_choices` are pairwise distinct. -/
theorem c1_no_double_booking (numReqs : Nat) (av : AvailTable) :
    ((assignFromAvailable numReqs av).final.map fun t => t.2.1).Nodup := by
  exact assignGo_inv numReqs 0 ⟨buildSorted av, [], []⟩ (by simp) (by simp)

/-! ### The --all flag is parsed but ignored (claim C7) -/

/-- Claim C7 (refuted): the `--all` flag is parsed but never read, so the
produced output of an invocation with the flag is identical to the same
invocation without it; the weighted ranking runs in both cases. -/
theorem c7_all_flag_no_effect (listPath : String)
    (readResult : Except String (List (String × ReqData)))
    (reservations : List Reservation) (computers : List Computer) (disks : List Disk) :
    mainRun true listPath readResult reservations computers disks =
      mainRun false listPath readResult reservations computers disks := rfl

/-! ### A requirements-file failure dies with a TypeError (claim C8) -/

/-- Claim C8 (abort holds, diagnostic does not): for every unreadable or
unparsable requirements file, the handler evaluates
`sys.exit("Can't open or parse " + list + ": " + e)`, and concatenating
a `str` with the caught exception object raises `TypeError`; the program
terminates with an unhandled `TypeError` before any eligibility checking
and reports nothing, but the intended diagnostic message is never
printed. -/
theorem c8_parse_error_typeerror (path : String) (e : String) (all : Bool)
    (reservations : List Reservation) (computers : List Computer) (disks : List Disk) :
    parse_list path (.error e) = .unhandled tyConcatMsg ∧
      mainRun all path (.error e) reservations computers disks = .unhandled tyConcatMsg :=
  ⟨rfl, rfl⟩

/-! ### A single requirement gets its lowest-weight candidate (claim C4) -/

theorem scanList_cons (r : String) (acc : RoundAcc) (e : AEntry) (tl : List AEntry) :
    scanList r acc (e :: tl) =
      scanList r (if ltOpt e.weight acc.min then ⟨some e.weight, some r, acc.limited⟩ else acc) tl :=
  rfl

theorem scanList_pick_or (r : String) (es : List AEntry) :
    ∀ acc : RoundAcc, (scanList r acc es).pick = acc.pick ∨ (scanList r acc es).pick = some r := by
  induction es with
  | nil => intro acc; exact Or.inl rfl
  | cons e tl ih =>
    intro acc
    rw [scanList_cons]
    by_cases hc : ltOpt e.weight acc.min = true
    · rw [if_pos hc]
      rcases ih ⟨some e.weight, some r, acc.limited⟩ with h | h
      · exact Or.inr h
      · exact Or.inr h
    · rw [if_neg hc]
      exact ih acc

theorem roundStep_fresh_pick (idx : Nat) (r : String) (es : List AEntry) (acc : RoundAcc)
    (hne : es ≠ []) (hmin : acc.min = none) (hlim : acc.limited = false) :
    (roundStep idx acc (r, es)).pick = some r := by
  obtain ⟨e0, rest, rfl⟩ : ∃ e0 rest, es = e0 :: rest := by
    cases es with
    | nil => exact absurd rfl hne
    | cons a l => exact ⟨a, l, rfl⟩
  rw [roundStep, hlim]
  by_cases hlen : (((e0 :: rest).length : Int) - 1 > (idx : Int))
  · rw [if_pos (by simpa using hlen)]
    have hidx : idx < (e0 :: rest).length := by
      rw [List.length_cons] at hlen ⊢
      omega
    rw [List.getElem?_eq_getElem hidx, hmin]
    rfl
  · rw [if_neg (by simpa using hlen)]
    show (scanList r ⟨none, acc.pick, true⟩ (e0 :: rest)).pick = some r
    rw [scanList_cons]
    have hfirst : ltOpt e0.weight (⟨none, acc.pick, true⟩ : RoundAcc).min = true := rfl
    rw [if_pos hfirst]
    rcases scanList_pick_or r rest ⟨some e0.weight, some r, (⟨none, acc.pick, true⟩ : RoundAcc).limited⟩ with h | h
    · exact h
    · exact h

theorem applyPick_single (r : String) (e0 : AEntry) (rest : List AEntry) :
    applyPick ⟨[(r, e0 :: rest)], [], []⟩ (some r) = ⟨[], [e0.id], [(r, e0.id, e0.name)]⟩ := by
  have hfind : lookupSA r [(r, e0 :: rest)] = some (e0 :: rest) := by
    simp [lookupSA, List.find?]
  simp only [applyPick, hfind]
  have htake : takeFirst ([] : List Int) (e0 :: rest) = some e0 := rfl
  simp only [htake]
  simp [List.eraseP]

/-- Claim C4: for a single requirement, the assignment phase recommends a
candidate of minimal `total_weight` (closest fit); its final choice is
the head of the weight-sorted candidate list. -/
theorem c4_closest_fit (r : String) (es : List AEntry) (h : es ≠ []) :
    ∃ e, e ∈ es ∧ (∀ x ∈ es, e.weight ≤ x.weight) ∧
      (assignFromAvailable 1 [(r, es)]).final = [(r, e.id, e.name)] := by
  obtain ⟨e0, rest, hses⟩ : ∃ e0 rest, List.insertionSort wle es = e0 :: rest := by
    cases hs : List.insertionSort wle es with
    | nil =>
      have hp := List.perm_insertionSort wle es
      rw [hs] at hp
      exact absurd hp.symm.eq_nil h
    | cons a l => exact ⟨a, l, rfl⟩
  have hmem : e0 ∈ es := by
    rw [← List.mem_insertionSort wle (l := es), hses]
    exact List.mem_cons_self e0 rest
  refine ⟨e0, hmem, ?_, ?_⟩
  · intro x hx
    have hxs : x ∈ List.insertionSort wle es := (List.mem_insertionSort wle).mpr hx
    have hsorted := List.sorted_insertionSort wle es
    rw [hses] at hxs hsorted
    rcases List.mem_cons.mp hxs with rfl | hxr
    · exact le_refl _
    · exact List.rel_of_sorted_cons hsorted x hxr
  · have hbs : buildSorted [(r, es)] = [(r, e0 :: rest)] := by
      simp [buildSorted, hses]
    rw [assignFromAvailable, hbs, assignGo, assignGo]
    have hpick : (roundScan 0 [(r, e0 :: rest)]).pick = some r := by
      rw [roundScan, List.foldl_cons, List.foldl_nil]
      exact roundStep_fresh_pick 0 r (e0 :: rest) ⟨none, none, false⟩ (by simp) rfl rfl
    rw [hpick, applyPick_single]

/-- Witness for C4, on the spec's concrete scenario: computer A (1 cpu, 8
cores, 32000 MB against requirement 1/4/16000, total weight 5) and
computer B (1 cpu, 4 cores, 16000 MB, total weight 3) are both
candidates; B is chosen, not A. -/
theorem c4_witness :
    (([⟨1, "compA", 5⟩, ⟨2, "compB", 3⟩] : List AEntry) ≠ []) ∧
      (∃ e, e ∈ ([⟨1, "compA", 5⟩, ⟨2, "compB", 3⟩] : List AEntry) ∧
        (∀ x ∈ ([⟨1, "compA", 5⟩, ⟨2, "compB", 3⟩] : List AEntry), e.weight ≤ x.weight) ∧
        (assignFromAvailable 1 [("r1", [⟨1, "compA", 5⟩, ⟨2, "compB", 3⟩])]).final =
          [("r1", e.id, e.name)]) ∧
      (assignFromAvailable 1 [("r1", [⟨1, "compA", 5⟩, ⟨2, "compB", 3⟩])]).final =
        [("r1", 2, "compB")] :=
  ⟨by decide, c4_closest_fit "r1" [⟨1, "compA", 5⟩, ⟨2, "compB", 3⟩] (by decide), by decide⟩

/-! ### What the limited branch of a round really does (claim C5) -/

/-- All candidate weights of a table, in scan order. -/
def allWeights (items : AvailTable) : List ℚ :=
  (items.map fun p => p.2.map (·.weight)).flatten

theorem scanList_limited (r : String) (es : List AEntry) :
    ∀ acc : RoundAcc, (scanList r acc es).limited = acc.limited := by
  induction es with
  | nil => intro acc; rfl
  | cons e tl ih =>
    intro acc
    rw [scanList_cons]
    by_cases hc : ltOpt e.weight acc.min = true
    · rw [if_pos hc, ih]
    · rw [if_neg hc, ih]

theorem roundStep_limited (idx : Nat) (acc : RoundAcc) (p : String × List AEntry) :
    (roundStep idx acc p).limited =
      (acc.limited || !(decide ((p.2.length : Int) - 1 > (idx : Int)))) := by
  cases hl : acc.limited with
  | true =>
    rw [roundStep, hl]
    rw [if_neg (by simp)]
    rw [scanList_limited]
    simp
  | false =>
    rw [roundStep, hl]
    by_cases ht : ((p.2.length : Int) - 1 > (idx : Int))
    · rw [if_pos (by simpa using ht)]
      cases hg : p.2[idx]? with
      | none => simp [ht, hl]
      | some e =>
        by_cases hc : ltOpt e.weight acc.min = true
        · simp [hc, ht, hl]
        · simp [hc, ht, hl]
    · rw [if_neg (by simpa using ht)]
      rw [scanList_limited]
      simp [ht]

theorem foldl_roundStep_limited (idx : Nat) :
    ∀ (sa : AvailTable) (acc : RoundAcc),
      (sa.foldl (roundStep idx) acc).limited =
        (acc.limited || sa.any fun p => !(decide ((p.2.length : Int) - 1 > (idx : Int)))) := by
  intro sa
  induction sa with
  | nil => intro acc; simp
  | cons p tl ih =>
    intro acc
    rw [List.foldl_cons, ih, roundStep_limited]
    simp [Bool.or_assoc]

/-- The invariant of the limited scan: either nothing has been compared
yet, or the running minimum is the least weight compared so far and the
picked requirement owns it (`owns nm m` records that requirement `nm`
has a candidate of weight `m` — min and pick are always updated
together, from the same candidate). -/
def ScanInv (W : List ℚ) (owns : String → ℚ → Prop) (acc : RoundAcc) : Prop :=
  (acc.min = none ∧ W = []) ∨
    ∃ m, acc.min = some m ∧ m ∈ W ∧ (∀ w ∈ W, m ≤ w) ∧
      ∃ nm, acc.pick = some nm ∧ owns nm m

theorem scanList_inv (owns : String → ℚ → Prop) (r : String) :
    ∀ es : List AEntry, (∀ e ∈ es, owns r e.weight) →
      ∀ (acc : RoundAcc) (W : List ℚ), ScanInv W owns acc →
        ScanInv (W ++ es.map (·.weight)) owns (scanList r acc es) := by
  intro es
  induction es with
  | nil => intro _ acc W h; simpa using h
  | cons e tl ih =>
    intro hr acc W h
    rw [scanList_cons]
    have hstep :
        ScanInv (W ++ [e.weight]) owns
          (if ltOpt e.weight acc.min then (⟨some e.weight, some r, acc.limited⟩ : RoundAcc)
           else acc) := by
      rcases h with ⟨hm, hW⟩ | ⟨m, hm, hmem, hbd, nm, hpk, hnm⟩
      · subst hW
        rw [hm]
        have h0 : ltOpt e.weight none = true := rfl
        rw [if_pos h0]
        exact Or.inr ⟨e.weight, rfl, by simp, by simp, r, rfl,
          hr e (List.mem_cons_self e tl)⟩
      · rw [hm]
        by_cases hlt : e.weight < m
        · rw [if_pos (by simp [ltOpt, hlt])]
          refine Or.inr ⟨e.weight, rfl, by simp, ?_, r, rfl, hr e (List.mem_cons_self e tl)⟩
          intro w hw
          rcases List.mem_append.mp hw with hw | hw
          · exact le_of_lt (lt_of_lt_of_le hlt (hbd w hw))
          · rcases (by simpa using hw : w = e.weight) with rfl
            exact le_refl _
        · rw [if_neg (by simp [ltOpt, hlt])]
          refine Or.inr ⟨m, hm, List.mem_append_left _ hmem, ?_, nm, hpk, hnm⟩
          intro w hw
          rcases List.mem_append.mp hw with hw | hw
          · exact hbd w hw
          · rcases (by simpa using hw : w = e.weight) with rfl
            exact le_of_not_lt hlt
    have hrec := ih (fun e' he' => hr e' (List.mem_cons_of_mem _ he')) _ _ hstep
    simpa [List.append_assoc] using hrec

theorem foldl_roundStep_of_limited (idx : Nat) :
    ∀ (items : AvailTable) (acc : RoundAcc), acc.limited = true →
      items.foldl (roundStep idx) acc = items.foldl (fun a p => scanList p.1 a p.2) acc := by
  intro items
  induction items with
  | nil => intro acc _; rfl
  | cons p tl ih =>
    intro acc hlim
    rw [List.foldl_cons, List.foldl_cons]
    have hstep : roundStep idx acc p = scanList p.1 acc p.2 := by
      rw [roundStep, hlim]
      rw [if_neg (by simp)]
      have hacc : ({ min := acc.min, pick := acc.pick, limited := true } : RoundAcc) = acc := by
        rw [← hlim]
      rw [show (if (true : Bool) then acc.min else none) = acc.min from rfl]
      rw [hacc]
    rw [hstep]
    exact ih _ (by rw [scanList_limited, hlim])

theorem scanItems_inv (idx : Nat) (owns : String → ℚ → Prop) :
    ∀ (items : AvailTable) (acc : RoundAcc) (W : List ℚ), acc.limited = true →
      ScanInv W owns acc → (∀ p ∈ items, ∀ e ∈ p.2, owns p.1 e.weight) →
      ScanInv (W ++ allWeights items) owns (items.foldl (roundStep idx) acc) := by
  intro items
  induction items with
  | nil => intro acc W _ h _; simpa [allWeights] using h
  | cons p tl ih =>
    intro acc W hlim h hall
    rw [foldl_roundStep_of_limited idx (p :: tl) acc hlim, List.foldl_cons,
      ← foldl_roundStep_of_limited idx tl _ (by rw [scanList_limited, hlim])]
    have hp := scanList_inv owns p.1 p.2 (hall p (List.mem_cons_self p tl)) acc W h
    have := ih (scanList p.1 acc p.2) (W ++ p.2.map (·.weight))
      (by rw [scanList_limited, hlim]) hp
      (fun q hq e he => hall q (List.mem_cons_of_mem p hq) e he)
    simpa [allWeights, List.append_assoc] using this

/-- Claim C5 (amended): in round `i` the code switches a requirement to
the full-scan ("limited") branch exactly when its candidate list has at
most `i + 1` entries (not when it is shorter than `i`); and from the
first such requirement onwards the round resets the running minimum and
scans every remaining candidate of the triggering requirement and of
every later requirement in iteration order (whether or not those are
themselves short), picking a requirement owning the globally minimal
scanned weight. -/
theorem c5_limited_mode :
    (∀ (idx : Nat) (sa : AvailTable),
      (roundScan idx sa).limited =
        sa.any fun p => !(decide ((p.2.length : Int) - 1 > (idx : Int)))) ∧
    (∀ (idx : Nat) (as : AvailTable) (b : String × List AEntry) (cs : AvailTable),
      (∀ p ∈ as, ((p.2.length : Int) - 1 > (idx : Int))) →
      ¬((b.2.length : Int) - 1 > (idx : Int)) →
      (∀ p ∈ b :: cs, p.2 ≠ []) →
      ∃ m, (roundScan idx (as ++ b :: cs)).min = some m ∧
        m ∈ allWeights (b :: cs) ∧ (∀ w ∈ allWeights (b :: cs), m ≤ w) ∧
        ∃ nm, (roundScan idx (as ++ b :: cs)).pick = some nm ∧
          ∃ p ∈ b :: cs, p.1 = nm ∧ ∃ e ∈ p.2, e.weight = m) := by
  constructor
  · intro idx sa
    rw [roundScan, foldl_roundStep_limited]
    rfl
  · intro idx as b cs has hb hnon
    have hA : (as.foldl (roundStep idx) ⟨none, none, false⟩).limited = false := by
      rw [foldl_roundStep_limited]
      simp only [Bool.false_or]
      rw [List.any_eq_false]
      intro p hp
      simp [has p hp]
    have hsplit : roundScan idx (as ++ b :: cs) =
        (b :: cs).foldl (roundStep idx) (as.foldl (roundStep idx) ⟨none, none, false⟩) := by
      rw [roundScan, List.foldl_append]
    set accA := as.foldl (roundStep idx) (⟨none, none, false⟩ : RoundAcc) with haccA
    have hbstep : roundStep idx accA b = scanList b.1 ⟨none, accA.pick, true⟩ b.2 := by
      rw [roundStep, hA]
      rw [if_neg (by simpa using hb)]
      rfl
    have howns : ∀ p ∈ b :: cs, ∀ e ∈ p.2,
        (fun nm m => ∃ q ∈ b :: cs, q.1 = nm ∧ ∃ e' ∈ q.2, e'.weight = m) p.1 e.weight :=
      fun p hp e he => ⟨p, hp, rfl, e, he, rfl⟩
    have hInvb :
        ScanInv ([] ++ b.2.map (·.weight))
          (fun nm m => ∃ q ∈ b :: cs, q.1 = nm ∧ ∃ e' ∈ q.2, e'.weight = m)
          (scanList b.1 ⟨none, accA.pick, true⟩ b.2) :=
      scanList_inv _ b.1 b.2 (howns b (List.mem_cons_self b cs)) ⟨none, accA.pick, true⟩ []
        (Or.inl ⟨rfl, rfl⟩)
    have hInv := scanItems_inv idx
      (fun nm m => ∃ q ∈ b :: cs, q.1 = nm ∧ ∃ e' ∈ q.2, e'.weight = m) cs
      (scanList b.1 ⟨none, accA.pick, true⟩ b.2) ([] ++ b.2.map (·.weight))
      (by rw [scanList_limited]) hInvb
      (fun p hp => howns p (List.mem_cons_of_mem b hp))
    have hres : ScanInv (allWeights (b :: cs))
        (fun nm m => ∃ q ∈ b :: cs, q.1 = nm ∧ ∃ e' ∈ q.2, e'.weight = m)
        (roundScan idx (as ++ b :: cs)) := by
      rw [hsplit, List.foldl_cons, hbstep]
      have heq : ([] ++ b.2.map (·.weight)) ++ allWeights cs = allWeights (b :: cs) := by
        simp [allWeights]
      rw [← heq]
      exact hInv
    rcases hres with ⟨_, hW⟩ | ⟨m, hm, hmem, hbd, nm, hpk, hnm⟩
    · exfalso
      have hbw : b.2.map (·.weight) ≠ [] := by
        intro hc
        exact hnon b (List.mem_cons_self b cs) (List.map_eq_nil_iff.mp hc)
      have : allWeights (b :: cs) ≠ [] := by
        simp only [allWeights, List.map_cons, List.flatten]
        intro hc
        exact hbw (List.append_eq_nil.mp hc).1
      exact this hW
    · exact ⟨m, hm, hmem, hbd, nm, hpk, hnm⟩

/-- Counterexample to claim C5 as stated: in round 0 a requirement with
exactly one candidate (a list that is not shorter than the round index
0) nevertheless enters the limited full-scan branch. -/
theorem c5_counterexample :
    (roundScan 0 [("r1", [⟨1, "c1", 5⟩])]).limited = true ∧
      ¬(([(⟨1, "c1", 5⟩ : AEntry)]).length < 0) :=
  ⟨by decide, by decide⟩

/-- Requirement r0 with three candidates: compared only at the round
index while no requirement is limited. -/
def c5as : AvailTable := [("r0", [⟨1, "a", 2⟩, ⟨2, "b", 3⟩, ⟨3, "c", 4⟩])]

/-- Requirement r1 with one candidate of weight 5: the limited trigger
in round 0. -/
def c5b : String × List AEntry := ("r1", [⟨4, "d", 5⟩])

/-- Requirement r2, after the trigger, with three candidates whose
minimum weight 3 is not at index 0. -/
def c5cs : AvailTable := [("r2", [⟨5, "e", 6⟩, ⟨6, "f", 3⟩, ⟨7, "g", 9⟩])]

/-- Witness for the amended C5, also exhibiting the scan scope: r0 is
compared only at index 0, r1 (one candidate, weight 5) triggers limited
mode, and the full candidate list of the later requirement r2 is then
scanned, so r2 wins with the global minimum weight 3 even though that
weight does not sit at index 0 and r2 is not itself limited. -/
theorem c5_witness :
    (∀ p ∈ c5as, ((p.2.length : Int) - 1 > (0 : Int))) ∧
    ¬((c5b.2.length : Int) - 1 > (0 : Int)) ∧
    (∃ m, (roundScan 0 (c5as ++ c5b :: c5cs)).min = some m ∧
      m ∈ allWeights (c5b :: c5cs) ∧ (∀ w ∈ allWeights (c5b :: c5cs), m ≤ w) ∧
      ∃ nm, (roundScan 0 (c5as ++ c5b :: c5cs)).pick = some nm ∧
        ∃ p ∈ c5b :: c5cs, p.1 = nm ∧ ∃ e ∈ p.2, e.weight = m) ∧
    (roundScan 0 (c5as ++ c5b :: c5cs)).pick = some "r2" :=
  ⟨by decide, by decide,
    c5_limited_mode.2 0 c5as c5b c5cs (by decide) (by decide) (by decide),
    by decide⟩

/-! ### Soundness of the eligibility scan: what an `available` row implies -/

/-- Everything that must have held for a computer when one of its rows
was inserted into `available` for a requirement: the reservable flag,
the four truthiness tests of the inclusion condition, and the absence of
a reservation-window conflict. -/
def PassP (reservations : List Reservation) (rdata : ReqData) (c : Computer) : Prop :=
  computer_reservableOf c.links false = true ∧
    truthyW (linkScan rdata c.links initLinkOut).cw = true ∧
    truthyW (linkScan rdata c.links initLinkOut).corew = true ∧
    truthyW (linkScan rdata c.links initLinkOut).mw = true ∧
    (linkScan rdata c.links initLinkOut).gpu = true ∧
    (linkScan rdata c.links initLinkOut).nic = true ∧
    conflictB c.id rdata reservations = false

theorem includeStep_some (lo : LinkOut) (rdata : ReqData) (reservations : List Reservation)
    (c : Computer) (dsPair : Option Bool × Option (List DiskReq))
    (e : AEntry) (d2 : Option Bool) (c2 : Option (List DiskReq))
    (h : includeStep lo rdata reservations c dsPair = .ok (some e, d2, c2)) :
    e.id = c.id ∧ e.name = c.name ∧
      truthyW lo.cw = true ∧ truthyW lo.corew = true ∧ truthyW lo.mw = true ∧
      lo.gpu = true ∧ lo.nic = true ∧ dsPair.1 = some true ∧
      conflictB c.id rdata reservations = false := by
  rw [includeStep] at h
  by_cases h1 : (truthyW lo.cw && truthyW lo.corew && truthyW lo.mw && lo.gpu && lo.nic) = true
  · rw [if_pos h1] at h
    simp only [Bool.and_eq_true] at h1
    cases hd : dsPair.1 with
    | none => rw [hd] at h; simp at h
    | some ds =>
      rw [hd] at h
      cases ds with
      | false => simp at h
      | true =>
        by_cases hc : conflictB c.id rdata reservations = true
        · simp only [if_true, if_pos hc] at h
          simp at h
        · simp only [if_true, if_neg hc] at h
          simp only [Except.ok.injEq, Prod.mk.injEq, Option.some.injEq] at h
          obtain ⟨he, -⟩ := h
          subst he
          exact ⟨rfl, rfl, h1.1.1.1.1, h1.1.1.1.2, h1.1.1.2, h1.1.2, h1.2, rfl,
            Bool.eq_false_iff.mpr hc⟩
  · rw [if_neg h1] at h
    simp at h

theorem processPair_some (rdata : ReqData) (reservations : List Reservation) (disks : List Disk)
    (c : Computer) (dSat : Option Bool) (curDisks : Option (List DiskReq))
    (e : AEntry) (d2 : Option Bool) (c2 : Option (List DiskReq))
    (h : processPair rdata reservations disks c dSat curDisks = .ok (some e, d2, c2)) :
    e.id = c.id ∧ e.name = c.name ∧ PassP reservations rdata c := by
  rw [processPair.eq_def] at h
  by_cases h1 : (!(computer_reservableOf c.links false)) = true
  · rw [if_pos h1] at h
    simp at h
  · rw [if_neg h1] at h
    by_cases h2 : (!(truthyW (linkScan rdata c.links initLinkOut).cw
          || truthyW (linkScan rdata c.links initLinkOut).corew)
        || !truthyW (linkScan rdata c.links initLinkOut).mw) = true
    · rw [if_pos h2] at h
      simp at h
    · rw [if_neg h2] at h
      obtain ⟨hid, hname, hcw, hcore, hmw, hgpu, hnic, -, hconf⟩ :=
        includeStep_some _ _ _ _ _ _ _ _ h
      exact ⟨hid, hname, by simpa using h1, hcw, hcore, hmw, hgpu, hnic, hconf⟩

theorem upsert_mem {entries : List AEntry} {e x : AEntry} (h : x ∈ upsert entries e) :
    x ∈ entries ∨ x = e := by
  rw [upsert] at h
  by_cases hc : entries.any (fun y => y.id == e.id) = true
  · rw [if_pos hc] at h
    rcases List.mem_map.mp h with ⟨y, hy, hxy⟩
    by_cases hid : (y.id == e.id) = true
    · rw [if_pos hid] at hxy
      exact Or.inr hxy.symm
    · rw [if_neg hid] at hxy
      exact Or.inl (hxy ▸ hy)
  · rw [if_neg hc] at h
    rcases List.mem_append.mp h with h | h
    · exact Or.inl h
    · exact Or.inr (by simpa using h)

theorem scanComputers_sound (rdata : ReqData) (reservations : List Reservation)
    (disks : List Disk) :
    ∀ (cs : List Computer) (entries : List AEntry) (dSat : Option Bool)
      (curDisks : Option (List DiskReq)) (out : List AEntry × Option Bool),
      scanComputers rdata reservations disks cs entries dSat curDisks = .ok out →
      ∀ x ∈ out.1,
        x ∈ entries ∨
          ∃ c ∈ cs, x.id = c.id ∧ x.name = c.name ∧ PassP reservations rdata c := by
  intro cs
  induction cs with
  | nil =>
    intro entries dSat curDisks out h x hx
    rw [scanComputers] at h
    simp only [Except.ok.injEq] at h
    subst h
    exact Or.inl hx
  | cons c cs ih =>
    intro entries dSat curDisks out h x hx
    rw [scanComputers] at h
    cases hp : processPair rdata reservations disks c dSat curDisks with
    | error err => rw [hp] at h; exact absurd h (by simp)
    | ok res =>
      obtain ⟨oe, dSat', curDisks'⟩ := res
      rw [hp] at h
      dsimp only at h
      rcases ih _ _ _ _ h x hx with hx' | ⟨c', hc', hx'⟩
      · cases oe with
        | none => exact Or.inl hx'
        | some e =>
          rcases upsert_mem hx' with h1 | rfl
          · exact Or.inl h1
          · obtain ⟨hid, hname, hpass⟩ := processPair_some _ _ _ _ _ _ _ _ _ hp
            exact Or.inr ⟨c, List.mem_cons_self c cs, hid, hname, hpass⟩
      · exact Or.inr ⟨c', List.mem_cons_of_mem c hc', hx'⟩

theorem reservableScan_sound (reservations : List Reservation) (computers : List Computer)
    (disks : List Disk) :
    ∀ (reqs : List (String × ReqData)) (dSat : Option Bool) (av : AvailTable),
      reservableScan reservations computers disks reqs dSat = .ok av →
      ∀ p ∈ av, ∃ rdata, (p.1, rdata) ∈ reqs ∧
        ∀ x ∈ p.2,
          ∃ c ∈ computers, x.id = c.id ∧ x.name = c.name ∧ PassP reservations rdata c := by
  intro reqs
  induction reqs with
  | nil =>
    intro dSat av h p hp
    rw [reservableScan] at h
    simp only [Except.ok.injEq] at h
    subst h
    cases hp
  | cons q rest ih =>
    intro dSat av h p hp
    obtain ⟨rname, rdata⟩ := q
    rw [reservableScan] at h
    cases hs : scanComputers rdata reservations disks computers [] dSat rdata.disks with
    | error err => rw [hs] at h; exact absurd h (by simp)
    | ok res =>
      obtain ⟨entries, dSat'⟩ := res
      rw [hs] at h
      dsimp only at h
      cases ht : reservableScan reservations computers disks rest dSat' with
      | error err => rw [ht] at h; exact absurd h (by simp)
      | ok tail =>
        rw [ht] at h
        simp only [Except.ok.injEq] at h
        subst h
        by_cases he : entries.isEmpty = true
        · rw [if_pos he] at hp
          rcases ih _ _ ht p hp with ⟨rdata', hr', hall⟩
          exact ⟨rdata', List.mem_cons_of_mem _ hr', hall⟩
        · rw [if_neg he] at hp
          rcases List.mem_cons.mp hp with rfl | hp'
          · refine ⟨rdata, List.mem_cons_self _ _, ?_⟩
            intro x hx
            rcases scanComputers_sound rdata reservations disks computers [] dSat rdata.disks
                (entries, dSat') hs x hx with hx' | hx'
            · cases hx'
            · exact hx'
          · rcases ih _ _ ht p hp' with ⟨rdata', hr', hall⟩
            exact ⟨rdata', List.mem_cons_of_mem _ hr', hall⟩

theorem key_nodup_val_eq {β : Type} :
    ∀ (l : List (String × β)) (k : String) (a b : β),
      (l.map Prod.fst).Nodup → (k, a) ∈ l → (k, b) ∈ l → a = b := by
  intro l
  induction l with
  | nil => intro k a b _ ha _; cases ha
  | cons p tl ih =>
    intro k a b hnd ha hb
    rw [List.map_cons, List.nodup_cons] at hnd
    rcases List.mem_cons.mp ha with ha' | ha' <;> rcases List.mem_cons.mp hb with hb' | hb'
    · exact congrArg Prod.snd (ha'.trans hb'.symm)
    · exfalso
      apply hnd.1
      have hk : p.1 = k := by rw [← ha']
      rw [hk]
      exact List.mem_map.mpr ⟨(k, b), hb', rfl⟩
    · exfalso
      apply hnd.1
      have hk : p.1 = k := by rw [← hb']
      rw [hk]
      exact List.mem_map.mpr ⟨(k, a), ha', rfl⟩
    · exact ih k a b hnd.2 ha' hb'

theorem mem_availIds {av : AvailTable} {rname : String} {i : Int} (h : i ∈ availIds av rname) :
    ∃ p ∈ av, p.1 = rname ∧ ∃ x ∈ p.2, x.id = i := by
  rw [availIds] at h
  cases hf : av.find? (fun p => p.1 == rname) with
  | none => rw [hf] at h; cases h
  | some p =>
    rw [hf] at h
    have hp := List.find?_some hf
    have hpm := List.mem_of_find?_eq_some hf
    rcases List.mem_map.mp h with ⟨x, hx, hxi⟩
    exact ⟨p, hpm, by simpa using hp, x, hx, hxi⟩

/-! ### Where the link loop's weight values come from (for claim C2) -/

theorem linkScan_cw_prov (rdata : ReqData) :
    ∀ (ls : List Link) (st : LinkOut),
      (linkScan rdata ls st).cw = st.cw ∨
        ∃ cpus, Link.deviceProcessor cpus ∈ ls ∧
          (linkScan rdata ls st).cw = check_cpus cpus rdata.cpu := by
  intro ls
  induction ls with
  | nil => intro st; exact Or.inl rfl
  | cons l ls ih =>
    intro st
    cases l with
    | reservationItem infos =>
      rw [linkScan]
      rcases ih st with h | ⟨cpus, hmem, h⟩
      · exact Or.inl h
      · exact Or.inr ⟨cpus, List.mem_cons_of_mem _ hmem, h⟩
    | deviceProcessor cpus =>
      rw [linkScan]
      by_cases hbr : (!(truthyW (check_cpus cpus rdata.cpu)
          || truthyW (check_cores cpus rdata.cores))) = true
      · rw [if_pos hbr]
        exact Or.inr ⟨cpus, List.mem_cons_self _ _, rfl⟩
      · rw [if_neg hbr]
        rcases ih ⟨check_cpus cpus rdata.cpu, check_cores cpus rdata.cores, st.mw, st.gpu,
            st.nic⟩ with h | ⟨cpus', hmem, h⟩
        · exact Or.inr ⟨cpus, List.mem_cons_self _ _, h⟩
        · exact Or.inr ⟨cpus', List.mem_cons_of_mem _ hmem, h⟩
    | deviceMemory dimms =>
      rw [linkScan]
      by_cases hbr : (!truthyW (check_memory dimms rdata.ram)) = true
      · rw [if_pos hbr]
        exact Or.inl rfl
      · rw [if_neg hbr]
        rcases ih ⟨st.cw, st.corew, check_memory dimms rdata.ram, st.gpu, st.nic⟩ with
          h | ⟨cpus', hmem, h⟩
        · exact Or.inl h
        · exact Or.inr ⟨cpus', List.mem_cons_of_mem _ hmem, h⟩
    | deviceGraphicCard gpus =>
      rw [linkScan]
      cases hg : rdata.gpu with
      | some g =>
        rcases ih ⟨st.cw, st.corew, st.mw, check_graphics gpus g, st.nic⟩ with
          h | ⟨cpus', hmem, h⟩
        · exact Or.inl h
        · exact Or.inr ⟨cpus', List.mem_cons_of_mem _ hmem, h⟩
      | none =>
        rcases ih st with h | ⟨cpus', hmem, h⟩
        · exact Or.inl h
        · exact Or.inr ⟨cpus', List.mem_cons_of_mem _ hmem, h⟩
    | deviceNetworkCard nics =>
      rw [linkScan]
      cases hn : rdata.nic with
      | some nm =>
        rcases ih ⟨st.cw, st.corew, st.mw, st.gpu, check_network nics nm⟩ with
          h | ⟨cpus', hmem, h⟩
        · exact Or.inl h
        · exact Or.inr ⟨cpus', List.mem_cons_of_mem _ hmem, h⟩
      | none =>
        rcases ih st with h | ⟨cpus', hmem, h⟩
        · exact Or.inl h
        · exact Or.inr ⟨cpus', List.mem_cons_of_mem _ hmem, h⟩
    | other r =>
      rw [linkScan]
      rcases ih st with h | ⟨cpus', hmem, h⟩
      · exact Or.inl h
      · exact Or.inr ⟨cpus', List.mem_cons_of_mem _ hmem, h⟩

theorem linkScan_corew_prov (rdata : ReqData) :
    ∀ (ls : List Link) (st : LinkOut),
      (linkScan rdata ls st).corew = st.corew ∨
        ∃ cpus, Link.deviceProcessor cpus ∈ ls ∧
          (linkScan rdata ls st).corew = check_cores cpus rdata.cores := by
  intro ls
  induction ls with
  | nil => intro st; exact Or.inl rfl
  | cons l ls ih =>
    intro st
    cases l with
    | reservationItem infos =>
      rw [linkScan]
      rcases ih st with h | ⟨cpus, hmem, h⟩
      · exact Or.inl h
      · exact Or.inr ⟨cpus, List.mem_cons_of_mem _ hmem, h⟩
    | deviceProcessor cpus =>
      rw [linkScan]
      by_cases hbr : (!(truthyW (check_cpus cpus rdata.cpu)
          || truthyW (check_cores cpus rdata.cores))) = true
      · rw [if_pos hbr]
        exact Or.inr ⟨cpus, List.mem_cons_self _ _, rfl⟩
      · rw [if_neg hbr]
        rcases ih ⟨check_cpus cpus rdata.cpu, check_cores cpus rdata.cores, st.mw, st.gpu,
            st.nic⟩ with h | ⟨cpus', hmem, h⟩
        · exact Or.inr ⟨cpus, List.mem_cons_self _ _, h⟩
        · exact Or.inr ⟨cpus', List.mem_cons_of_mem _ hmem, h⟩
    | deviceMemory dimms =>
      rw [linkScan]
      by_cases hbr : (!truthyW (check_memory dimms rdata.ram)) = true
      · rw [if_pos hbr]
        exact Or.inl rfl
      · rw [if_neg hbr]
        rcases ih ⟨st.cw, st.corew, check_memory dimms rdata.ram, st.gpu, st.nic⟩ with
          h | ⟨cpus', hmem, h⟩
        · exact Or.inl h
        · exact Or.inr ⟨cpus', List.mem_cons_of_mem _ hmem, h⟩
    | deviceGraphicCard gpus =>
      rw [linkScan]
      cases hg : rdata.gpu with
      | some g =>
        rcases ih ⟨st.cw, st.corew, st.mw, check_graphics gpus g, st.nic⟩ with
          h | ⟨cpus', hmem, h⟩
        · exact Or.inl h
        · exact Or.inr ⟨cpus', List.mem_cons_of_mem _ hmem, h⟩
      | none =>
        rcases ih st with h | ⟨cpus', hmem, h⟩
        · exact Or.inl h
        · exact Or.inr ⟨cpus', List.mem_cons_of_mem _ hmem, h⟩
    | deviceNetworkCard nics =>
      rw [linkScan]
      cases hn : rdata.nic with
      | some nm =>
        rcases ih ⟨st.cw, st.corew, st.mw, st.gpu, check_network nics nm⟩ with
          h | ⟨cpus', hmem, h⟩
        · exact Or.inl h
        · exact Or.inr ⟨cpus', List.mem_cons_of_mem _ hmem, h⟩
      | none =>
        rcases ih st with h | ⟨cpus', hmem, h⟩
        · exact Or.inl h
        · exact Or.inr ⟨cpus', List.mem_cons_of_mem _ hmem, h⟩
    | other r =>
      rw [linkScan]
      rcases ih st with h | ⟨cpus', hmem, h⟩
      · exact Or.inl h
      · exact Or.inr ⟨cpus', List.mem_cons_of_mem _ hmem, h⟩

theorem linkScan_mw_prov (rdata : ReqData) :
    ∀ (ls : List Link) (st : LinkOut),
      (linkScan rdata ls st).mw = st.mw ∨
        ∃ dimms, Link.deviceMemory dimms ∈ ls ∧
          (linkScan rdata ls st).mw = check_memory dimms rdata.ram := by
  intro ls
  induction ls with
  | nil => intro st; exact Or.inl rfl
  | cons l ls ih =>
    intro st
    cases l with
    | reservationItem infos =>
      rw [linkScan]
      rcases ih st with h | ⟨dimms, hmem, h⟩
      · exact Or.inl h
      · exact Or.inr ⟨dimms, List.mem_cons_of_mem _ hmem, h⟩
    | deviceProcessor cpus =>
      rw [linkScan]
      by_cases hbr : (!(truthyW (check_cpus cpus rdata.cpu)
          || truthyW (check_cores cpus rdata.cores))) = true
      · rw [if_pos hbr]
        exact Or.inl rfl
      · rw [if_neg hbr]
        rcases ih ⟨check_cpus cpus rdata.cpu, check_cores cpus rdata.cores, st.mw, st.gpu,
            st.nic⟩ with h | ⟨dimms', hmem, h⟩
        · exact Or.inl h
        · exact Or.inr ⟨dimms', List.mem_cons_of_mem _ hmem, h⟩
    | deviceMemory dimms =>
      rw [linkScan]
      by_cases hbr : (!truthyW (check_memory dimms rdata.ram)) = true
      · rw [if_pos hbr]
        exact Or.inr ⟨dimms, List.mem_cons_self _ _, rfl⟩
      · rw [if_neg hbr]
        rcases ih ⟨st.cw, st.corew, check_memory dimms rdata.ram, st.gpu, st.nic⟩ with
          h | ⟨dimms', hmem, h⟩
        · exact Or.inr ⟨dimms, List.mem_cons_self _ _, h⟩
        · exact Or.inr ⟨dimms', List.mem_cons_of_mem _ hmem, h⟩
    | deviceGraphicCard gpus =>
      rw [linkScan]
      cases hg : rdata.gpu with
      | some g =>
        rcases ih ⟨st.cw, st.corew, st.mw, check_graphics gpus g, st.nic⟩ with
          h | ⟨dimms', hmem, h⟩
        · exact Or.inl h
        · exact Or.inr ⟨dimms', List.mem_cons_of_mem _ hmem, h⟩
      | none =>
        rcases ih st with h | ⟨dimms', hmem, h⟩
        · exact Or.inl h
        · exact Or.inr ⟨dimms', List.mem_cons_of_mem _ hmem, h⟩
    | deviceNetworkCard nics =>
      rw [linkScan]
      cases hn : rdata.nic with
      | some nm =>
        rcases ih ⟨st.cw, st.corew, st.mw, st.gpu, check_network nics nm⟩ with
          h | ⟨dimms', hmem, h⟩
        · exact Or.inl h
        · exact Or.inr ⟨dimms', List.mem_cons_of_mem _ hmem, h⟩
      | none =>
        rcases ih st with h | ⟨dimms', hmem, h⟩
        · exact Or.inl h
        · exact Or.inr ⟨dimms', List.mem_cons_of_mem _ hmem, h⟩
    | other r =>
      rw [linkScan]
      rcases ih st with h | ⟨dimms', hmem, h⟩
      · exact Or.inl h
      · exact Or.inr ⟨dimms', List.mem_cons_of_mem _ hmem, h⟩

/-! ### A failed GPU or NIC check survives to the end of the loop -/

theorem linkScan_gpu_false (rdata : ReqData) (g : String) (hg : rdata.gpu = some g) :
    ∀ (ls : List Link) (st : LinkOut), st.gpu = false →
      (∀ gpus, Link.deviceGraphicCard gpus ∈ ls → check_graphics gpus g = false) →
      (linkScan rdata ls st).gpu = false := by
  intro ls
  induction ls with
  | nil => intro st h _; exact h
  | cons l ls ih =>
    intro st h hall
    have hall' : ∀ gpus, Link.deviceGraphicCard gpus ∈ ls → check_graphics gpus g = false :=
      fun gpus hm => hall gpus (List.mem_cons_of_mem _ hm)
    cases l with
    | reservationItem infos =>
      rw [linkScan]
      exact ih st h hall'
    | deviceProcessor cpus =>
      rw [linkScan]
      by_cases hbr : (!(truthyW (check_cpus cpus rdata.cpu)
          || truthyW (check_cores cpus rdata.cores))) = true
      · rw [if_pos hbr]
        exact h
      · rw [if_neg hbr]
        exact ih _ h hall'
    | deviceMemory dimms =>
      rw [linkScan]
      by_cases hbr : (!truthyW (check_memory dimms rdata.ram)) = true
      · rw [if_pos hbr]
        exact h
      · rw [if_neg hbr]
        exact ih _ h hall'
    | deviceGraphicCard gpus =>
      rw [linkScan, hg]
      exact ih _ (hall gpus (List.mem_cons_self _ _)) hall'
    | deviceNetworkCard nics =>
      rw [linkScan]
      cases hn : rdata.nic with
      | some nm => exact ih _ h hall'
      | none => exact ih st h hall'
    | other r =>
      rw [linkScan]
      exact ih st h hall'

theorem linkScan_gpu_fail (rdata : ReqData) (g : String) (hg : rdata.gpu = some g) :
    ∀ (ls : List Link) (st : LinkOut),
      (∀ gpus, Link.deviceGraphicCard gpus ∈ ls → check_graphics gpus g = false) →
      (∃ gpus, Link.deviceGraphicCard gpus ∈ ls) →
      ((linkScan rdata ls st).gpu = false ∨
        (!(truthyW (linkScan rdata ls st).cw || truthyW (linkScan rdata ls st).corew)
          || !truthyW (linkScan rdata ls st).mw) = true) := by
  intro ls
  induction ls with
  | nil =>
    intro st _ hex
    rcases hex with ⟨gpus, hm⟩
    cases hm
  | cons l ls ih =>
    intro st hall hex
    have hall' : ∀ gpus, Link.deviceGraphicCard gpus ∈ ls → check_graphics gpus g = false :=
      fun gpus hm => hall gpus (List.mem_cons_of_mem _ hm)
    cases l with
    | reservationItem infos =>
      rw [linkScan]
      refine ih st hall' ?_
      rcases hex with ⟨gpus, hm⟩
      rcases List.mem_cons.mp hm with hm' | hm'
      · cases hm'
      · exact ⟨gpus, hm'⟩
    | deviceProcessor cpus =>
      rw [linkScan]
      by_cases hbr : (!(truthyW (check_cpus cpus rdata.cpu)
          || truthyW (check_cores cpus rdata.cores))) = true
      · rw [if_pos hbr]
        exact Or.inr (by simp_all)
      · rw [if_neg hbr]
        refine ih _ hall' ?_
        rcases hex with ⟨gpus, hm⟩
        rcases List.mem_cons.mp hm with hm' | hm'
        · cases hm'
        · exact ⟨gpus, hm'⟩
    | deviceMemory dimms =>
      rw [linkScan]
      by_cases hbr : (!truthyW (check_memory dimms rdata.ram)) = true
      · rw [if_pos hbr]
        exact Or.inr (by simp_all)
      · rw [if_neg hbr]
        refine ih _ hall' ?_
        rcases hex with ⟨gpus, hm⟩
        rcases List.mem_cons.mp hm with hm' | hm'
        · cases hm'
        · exact ⟨gpus, hm'⟩
    | deviceGraphicCard gpus =>
      rw [linkScan, hg]
      exact Or.inl (linkScan_gpu_false rdata g hg ls _
        (hall gpus (List.mem_cons_self _ _)) hall')
    | deviceNetworkCard nics =>
      rw [linkScan]
      have hex' : ∃ gpus, Link.deviceGraphicCard gpus ∈ ls := by
        rcases hex with ⟨gpus, hm⟩
        rcases List.mem_cons.mp hm with hm' | hm'
        · cases hm'
        · exact ⟨gpus, hm'⟩
      cases hn : rdata.nic with
      | some nm => exact ih _ hall' hex'
      | none => exact ih st hall' hex'
    | other r =>
      rw [linkScan]
      refine ih st hall' ?_
      rcases hex with ⟨gpus, hm⟩
      rcases List.mem_cons.mp hm with hm' | hm'
      · cases hm'
      · exact ⟨gpus, hm'⟩

theorem linkScan_nic_false (rdata : ReqData) (nm : String) (hn : rdata.nic = some nm) :
    ∀ (ls : List Link) (st : LinkOut), st.nic = false →
      (∀ nics, Link.deviceNetworkCard nics ∈ ls → check_network nics nm = false) →
      (linkScan rdata ls st).nic = false := by
  intro ls
  induction ls with
  | nil => intro st h _; exact h
  | cons l ls ih =>
    intro st h hall
    have hall' : ∀ nics, Link.deviceNetworkCard nics ∈ ls → check_network nics nm = false :=
      fun nics hm => hall nics (List.mem_cons_of_mem _ hm)
    cases l with
    | reservationItem infos =>
      rw [linkScan]
      exact ih st h hall'
    | deviceProcessor cpus =>
      rw [linkScan]
      by_cases hbr : (!(truthyW (check_cpus cpus rdata.cpu)
          || truthyW (check_cores cpus rdata.cores))) = true
      · rw [if_pos hbr]
        exact h
      · rw [if_neg hbr]
        exact ih _ h hall'
    | deviceMemory dimms =>
      rw [linkScan]
      by_cases hbr : (!truthyW (check_memory dimms rdata.ram)) = true
      · rw [if_pos hbr]
        exact h
      · rw [if_neg hbr]
        exact ih _ h hall'
    | deviceGraphicCard gpus =>
      rw [linkScan]
      cases hg : rdata.gpu with
      | some g => exact ih _ h hall'
      | none => exact ih st h hall'
    | deviceNetworkCard nics =>
      rw [linkScan, hn]
      exact ih _ (hall nics (List.mem_cons_self _ _)) hall'
    | other r =>
      rw [linkScan]
      exact ih st h hall'

theorem linkScan_nic_fail (rdata : ReqData) (nm : String) (hn : rdata.nic = some nm) :
    ∀ (ls : List Link) (st : LinkOut),
      (∀ nics, Link.deviceNetworkCard nics ∈ ls → check_network nics nm = false) →
      (∃ nics, Link.deviceNetworkCard nics ∈ ls) →
      ((linkScan rdata ls st).nic = false ∨
        (!(truthyW (linkScan rdata ls st).cw || truthyW (linkScan rdata ls st).corew)
          || !truthyW (linkScan rdata ls st).mw) = true) := by
  intro ls
  induction ls with
  | nil =>
    intro st _ hex
    rcases hex with ⟨nics, hm⟩
    cases hm
  | cons l ls ih =>
    intro st hall hex
    have hall' : ∀ nics, Link.deviceNetworkCard nics ∈ ls → check_network nics nm = false :=
      fun nics hm => hall nics (List.mem_cons_of_mem _ hm)
    cases l with
    | reservationItem infos =>
      rw [linkScan]
      refine ih st hall' ?_
      rcases hex with ⟨nics, hm⟩
      rcases List.mem_cons.mp hm with hm' | hm'
      · cases hm'
      · exact ⟨nics, hm'⟩
    | deviceProcessor cpus =>
      rw [linkScan]
      by_cases hbr : (!(truthyW (check_cpus cpus rdata.cpu)
          || truthyW (check_cores cpus rdata.cores))) = true
      · rw [if_pos hbr]
        exact Or.inr (by simp_all)
      · rw [if_neg hbr]
        refine ih _ hall' ?_
        rcases hex with ⟨nics, hm⟩
        rcases List.mem_cons.mp hm with hm' | hm'
        · cases hm'
        · exact ⟨nics, hm'⟩
    | deviceMemory dimms =>
      rw [linkScan]
      by_cases hbr : (!truthyW (check_memory dimms rdata.ram)) = true
      · rw [if_pos hbr]
        exact Or.inr (by simp_all)
      · rw [if_neg hbr]
        refine ih _ hall' ?_
        rcases hex with ⟨nics, hm⟩
        rcases List.mem_cons.mp hm with hm' | hm'
        · cases hm'
        · exact ⟨nics, hm'⟩
    | deviceGraphicCard gpus =>
      rw [linkScan]
      have hex' : ∃ nics, Link.deviceNetworkCard nics ∈ ls := by
        rcases hex with ⟨nics, hm⟩
        rcases List.mem_cons.mp hm with hm' | hm'
        · cases hm'
        · exact ⟨nics, hm'⟩
      cases hg : rdata.gpu with
      | some g => exact ih _ hall' hex'
      | none => exact ih st hall' hex'
    | deviceNetworkCard nics =>
      rw [linkScan, hn]
      exact Or.inl (linkScan_nic_false rdata nm hn ls _
        (hall nics (List.mem_cons_self _ _)) hall')
    | other r =>
      rw [linkScan]
      refine ih st hall' ?_
      rcases hex with ⟨nics, hm⟩
      rcases List.mem_cons.mp hm with hm' | hm'
      · cases hm'
      · exact ⟨nics, hm'⟩

/-! ### A reservation-window conflict excludes the computer (claim C6) -/

/-- Claim C6: a computer whose existing reservation window contains the
requirement's start or end instant (in particular one whose window fully
contains the requirement's window) never appears in that requirement's
entry of the `available` table produced by `reservable`; the conflict
test is evaluated per requirement, so only that requirement's list is
affected. -/
theorem c6_window_conflict_excludes
    (reservations : List Reservation) (computers : List Computer) (disks : List Disk)
    (reqs : List (String × ReqData)) (rname : String) (rdata : ReqData) (i : Int)
    (av : AvailTable) (fc : List (String × Int × String))
    (hnodup : (reqs.map Prod.fst).Nodup)
    (hmem : (rname, rdata) ∈ reqs)
    (hconf : conflictB i rdata reservations = true)
    (hok : reservable reservations computers disks reqs = .ok (av, fc)) :
    i ∉ availIds av rname := by
  intro hi
  rw [reservable] at hok
  cases hs : reservableScan reservations computers disks reqs none with
  | error err => rw [hs] at hok; exact absurd hok (by simp)
  | ok av' =>
    rw [hs] at hok
    simp only [Except.ok.injEq, Prod.mk.injEq] at hok
    obtain ⟨rfl, -⟩ := hok
    rcases mem_availIds hi with ⟨p, hpav, hpn, x, hx, hxi⟩
    rcases reservableScan_sound reservations computers disks reqs none av' hs p hpav with
      ⟨rdata', hr', hall⟩
    rcases hall x hx with ⟨c, _, hid, _, hpass⟩
    have hrd : rdata' = rdata := by
      apply key_nodup_val_eq reqs rname rdata' rdata hnodup ?_ hmem
      rw [← hpn]
      exact hr'
    have hcfree := hpass.2.2.2.2.2.2
    rw [hrd, ← hid, hxi, hconf] at hcfree
    cases hcfree

/-- Witness for C6: requirement r1 wants the window [10, 20], which is
fully contained in an existing reservation [0, 50] of computer 1, so
computer 1 is excluded from r1; the same computer stays a candidate for
requirement r2 (window [100, 200]) in the same run. -/
theorem c6_witness :
    (([("r1", reqFix none (some []) 10 20), ("r2", reqFix none (some []) 100 200)].map
        Prod.fst).Nodup) ∧
    ("r1", reqFix none (some []) 10 20) ∈
      [("r1", reqFix none (some []) 10 20), ("r2", reqFix none (some []) 100 200)] ∧
    conflictB 1 (reqFix none (some []) 10 20) [⟨["Computer 1"], 0, 50⟩] = true ∧
    reservable [⟨["Computer 1"], 0, 50⟩] [compFix 1 "c1"] []
        [("r1", reqFix none (some []) 10 20), ("r2", reqFix none (some []) 100 200)] =
      .ok ([("r2", [⟨1, "c1", 3⟩])], [("r2", 1, "c1")]) ∧
    (1 : Int) ∉ availIds [("r2", [⟨1, "c1", 3⟩])] "r1" ∧
    (1 : Int) ∈ availIds [("r2", [⟨1, "c1", 3⟩])] "r2" :=
  ⟨by decide, by decide, by decide, by decide,
    c6_window_conflict_excludes [⟨["Computer 1"], 0, 50⟩] [compFix 1 "c1"] []
      [("r1", reqFix none (some []) 10 20), ("r2", reqFix none (some []) 100 200)]
      "r1" (reqFix none (some []) 10 20) 1 [("r2", [⟨1, "c1", 3⟩])] [("r2", 1, "c1")]
      (by decide) (by decide) (by decide) (by decide),
    by decide⟩

/-! ### Hard eligibility failures exclude the computer (claim C2) -/

theorem comp_nodup_eq :
    ∀ (l : List Computer) (c c' : Computer),
      (l.map Computer.id).Nodup → c ∈ l → c' ∈ l → c.id = c'.id → c = c' := by
  intro l
  induction l with
  | nil => intro c c' _ hc _ _; cases hc
  | cons p tl ih =>
    intro c c' hnd hc hc' hid
    rw [List.map_cons, List.nodup_cons] at hnd
    rcases List.mem_cons.mp hc with rfl | hc1 <;> rcases List.mem_cons.mp hc' with rfl | hc2
    · rfl
    · exfalso
      apply hnd.1
      exact List.mem_map.mpr ⟨c', hc2, hid.symm⟩
    · exfalso
      apply hnd.1
      exact List.mem_map.mpr ⟨c, hc1, hid⟩
    · exact ih c c' hnd.2 hc1 hc2 hid

theorem includeStep_dsFalse (lo : LinkOut) (rdata : ReqData) (reservations : List Reservation)
    (c : Computer) (dsPair : Option Bool × Option (List DiskReq))
    (out : Option AEntry × Option Bool × Option (List DiskReq))
    (hds : dsPair.1 = some false)
    (h : includeStep lo rdata reservations c dsPair = .ok out) : out.1 = none := by
  rw [includeStep] at h
  by_cases h1 : (truthyW lo.cw && truthyW lo.corew && truthyW lo.mw && lo.gpu && lo.nic) = true
  · rw [if_pos h1, hds] at h
    dsimp only at h
    rw [if_neg Bool.false_ne_true] at h
    simp only [Except.ok.injEq] at h
    rw [← h]
  · rw [if_neg h1] at h
    simp only [Except.ok.injEq] at h
    rw [← h]

/-- Claim C2 (amended): a computer fails hard for a requirement — it is
not reservable, every processor link yields a cpu count below the
requirement, every processor link yields a core sum below the
requirement, every memory link yields a memory sum below the
requirement, a requested GPU (resp. NIC) model has a corresponding
device link on the computer but no attached device matching the
substring, or the code's disk check over the requirement's current disk
list fails — then the computer does not appear in that requirement's
entry of the `available` table (first part), resp. the pair's evaluation
inserts nothing (second part, for the state-dependent disk check).  The
amendment restricts the GPU/NIC clause to computers that expose a
corresponding device link: with no such link the code leaves the check
flag `True` and the computer may appear even though no attached device
matches. -/
theorem c2_hard_checks_exclude :
    (∀ (reservations : List Reservation) (computers : List Computer) (disks : List Disk)
       (reqs : List (String × ReqData)) (rname : String) (rdata : ReqData) (c : Computer)
       (av : AvailTable) (fc : List (String × Int × String)),
      (reqs.map Prod.fst).Nodup →
      (computers.map Computer.id).Nodup →
      (rname, rdata) ∈ reqs →
      c ∈ computers →
      reservable reservations computers disks reqs = .ok (av, fc) →
      (computer_reservableOf c.links false = false ∨
        (∀ cpus, Link.deviceProcessor cpus ∈ c.links → (cpus.length : Int) < rdata.cpu) ∨
        (∀ cpus, Link.deviceProcessor cpus ∈ c.links →
          cpus.foldl (fun acc cpu => acc + cpu.nbcores) 0 < rdata.cores) ∨
        (∀ dimms, Link.deviceMemory dimms ∈ c.links →
          dimms.foldl (fun acc dimm => acc + dimm.size) 0 < rdata.ram) ∨
        (∃ g, rdata.gpu = some g ∧ (∃ gpus, Link.deviceGraphicCard gpus ∈ c.links) ∧
          ∀ gpus, Link.deviceGraphicCard gpus ∈ c.links → check_graphics gpus g = false) ∨
        (∃ nm, rdata.nic = some nm ∧ (∃ nics, Link.deviceNetworkCard nics ∈ c.links) ∧
          ∀ nics, Link.deviceNetworkCard nics ∈ c.links → check_network nics nm = false)) →
      c.id ∉ availIds av rname) ∧
    (∀ (rdata : ReqData) (reservations : List Reservation) (disks : List Disk) (c : Computer)
       (dSat : Option Bool) (dr : List DiskReq)
       (out : Option AEntry × Option Bool × Option (List DiskReq)),
      (check_disks c.id disks (sortDiskReqs dr)).1 = false →
      processPair rdata reservations disks c dSat (some dr) = .ok out →
      out.1 = none) := by
  constructor
  · intro reservations computers disks reqs rname rdata c av fc hnodR hnodC hmemR hmemC hok
      hfail hi
    rw [reservable] at hok
    cases hs : reservableScan reservations computers disks reqs none with
    | error err => rw [hs] at hok; exact absurd hok (by simp)
    | ok av' =>
      rw [hs] at hok
      simp only [Except.ok.injEq, Prod.mk.injEq] at hok
      obtain ⟨rfl, -⟩ := hok
      rcases mem_availIds hi with ⟨p, hpav, hpn, x, hx, hxi⟩
      rcases reservableScan_sound reservations computers disks reqs none av' hs p hpav with
        ⟨rdata', hr', hall⟩
      rcases hall x hx with ⟨c', hc'm, hid, -, hpass⟩
      have hrd : rdata' = rdata := by
        apply key_nodup_val_eq reqs rname rdata' rdata hnodR ?_ hmemR
        rw [← hpn]
        exact hr'
      have hcc : c' = c := comp_nodup_eq computers c' c hnodC hc'm hmemC (by rw [← hid, hxi])
      rw [hrd, hcc] at hpass
      obtain ⟨hresv, hcw, hcore, hmw, hgpu, hnic, -⟩ := hpass
      rcases hfail with hf | hf | hf | hf | ⟨g, hg, hex, hallg⟩ | ⟨nm, hn, hex, halln⟩
      · rw [hf] at hresv
        cases hresv
      · rcases linkScan_cw_prov rdata c.links initLinkOut with h | ⟨cpus, hm, h⟩
        · rw [h] at hcw
          cases hcw
        · have hnone : check_cpus cpus rdata.cpu = none := by
            rw [check_cpus, if_neg (not_le.mpr (hf cpus hm))]
          rw [h, hnone] at hcw
          cases hcw
      · rcases linkScan_corew_prov rdata c.links initLinkOut with h | ⟨cpus, hm, h⟩
        · rw [h] at hcore
          cases hcore
        · have hnone : check_cores cpus rdata.cores = none := by
            simp only [check_cores]
            rw [if_neg (not_le.mpr (hf cpus hm))]
          rw [h, hnone] at hcore
          cases hcore
      · rcases linkScan_mw_prov rdata c.links initLinkOut with h | ⟨dimms, hm, h⟩
        · rw [h] at hmw
          cases hmw
        · have hnone : check_memory dimms rdata.ram = none := by
            simp only [check_memory]
            rw [if_neg (not_le.mpr (hf dimms hm))]
          rw [h, hnone] at hmw
          cases hmw
      · rcases linkScan_gpu_fail rdata g hg c.links initLinkOut hallg hex with h | h
        · rw [h] at hgpu
          cases hgpu
        · rw [hcw, hcore, hmw] at h
          simp at h
      · rcases linkScan_nic_fail rdata nm hn c.links initLinkOut halln hex with h | h
        · rw [h] at hnic
          cases hnic
        · rw [hcw, hcore, hmw] at h
          simp at h
  · intro rdata reservations disks c dSat dr out hfail h
    rw [processPair.eq_def] at h
    by_cases h1 : (!(computer_reservableOf c.links false)) = true
    · rw [if_pos h1] at h
      simp only [Except.ok.injEq] at h
      rw [← h]
    · rw [if_neg h1] at h
      by_cases h2 : (!(truthyW (linkScan rdata c.links initLinkOut).cw
            || truthyW (linkScan rdata c.links initLinkOut).corew)
          || !truthyW (linkScan rdata c.links initLinkOut).mw) = true
      · rw [if_pos h2] at h
        simp only [Except.ok.injEq] at h
        rw [← h]
      · rw [if_neg h2] at h
        refine includeStep_dsFalse _ _ _ _ _ _ ?_ h
        simp [disksUpdate, hfail]

/-- Whether a computer exposes a graphic-card device link at all. -/
def hasGpuLinkB (c : Computer) : Bool :=
  c.links.any fun l =>
    match l with
    | .deviceGraphicCard _ => true
    | _ => false

/-- Counterexample to claim C2 as stated, in two scenarios.  First: the
requirement requests GPU model "NVIDIA" but the computer exposes no
graphic-card device link at all, so no attached device's model contains
the substring; per the claim the requested GPU check fails and the
computer must not appear, yet the code leaves the flag `True` and the
computer is listed as a candidate (and even recommended).  Second: the
requested disk check against requirement r1's full disk list fails for
computer 2 (its only disk is 50 < 100), yet computer 2 appears in r1's
entry, because the list was depleted while computer 1 was processed —
so the disk clause holds only against the requirement's current
(mutable) list, at the level of the pair evaluation. -/
theorem c2_counterexample :
    (reqFix (some "NVIDIA") (some []) 0 0).gpu = some "NVIDIA" ∧
    hasGpuLinkB (compFix 1 "c1") = false ∧
    reservable [] [compFix 1 "c1"] [] [("r1", reqFix (some "NVIDIA") (some []) 0 0)] =
      .ok ([("r1", [⟨1, "c1", 3⟩])], [("r1", 1, "c1")]) ∧
    (1 : Int) ∈ availIds [("r1", [⟨1, "c1", 3⟩])] "r1" ∧
    (check_disks 2 [⟨"Computer", 1, 150, "disk1"⟩, ⟨"Computer", 2, 50, "disk2"⟩]
        (sortDiskReqs [⟨100, none⟩])).1 = false ∧
    reservable [] [compFix 1 "c1", compFix 2 "c2"]
        [⟨"Computer", 1, 150, "disk1"⟩, ⟨"Computer", 2, 50, "disk2"⟩]
        [("r1", reqFix none (some [⟨100, none⟩]) 0 0)] =
      .ok ([("r1", [⟨1, "c1", 3⟩, ⟨2, "c2", 3⟩])], [("r1", 1, "c1")]) ∧
    (2 : Int) ∈ availIds [("r1", [⟨1, "c1", 3⟩, ⟨2, "c2", 3⟩])] "r1" :=
  ⟨rfl, by decide, by decide, by decide, by decide, by decide, by decide⟩

/-- A reservable computer whose single processor link carries no
processor records: the cpu count 0 is below every positive requirement. -/
def c2BadComp : Computer :=
  ⟨2, "c2", [.reservationItem [⟨true⟩], .deviceProcessor [], .deviceMemory [⟨1⟩]]⟩

/-- Witness for the amended C2: a computer whose processor count (0) is
below the requirement's cpu count (1) never appears in the requirement's
entry of the produced `available` table. -/
theorem c2_witness :
    (([("r1", reqFix none (some []) 0 0)].map Prod.fst).Nodup) ∧
    (([c2BadComp].map Computer.id).Nodup) ∧
    ("r1", reqFix none (some []) 0 0) ∈ [("r1", reqFix none (some []) 0 0)] ∧
    c2BadComp ∈ [c2BadComp] ∧
    reservable [] [c2BadComp] [] [("r1", reqFix none (some []) 0 0)] = .ok ([], []) ∧
    (∀ cpus, Link.deviceProcessor cpus ∈ c2BadComp.links →
      (cpus.length : Int) < (reqFix none (some []) 0 0).cpu) ∧
    c2BadComp.id ∉ availIds [] "r1" :=
  ⟨by decide, by decide, by decide, by decide, by decide,
    fun cpus h => by
      simp [c2BadComp] at h
      subst h
      decide,
    c2_hard_checks_exclude.1 [] [c2BadComp] [] [("r1", reqFix none (some []) 0 0)]
      "r1" (reqFix none (some []) 0 0) c2BadComp [] [] (by decide) (by decide) (by decide)
      (by decide) (by decide)
      (Or.inr (Or.inl (fun cpus h => by
        simp [c2BadComp] at h
        subst h
        decide)))⟩

/-! ### The unbound and stale disks_satisfied variable (claim C10) -/

/-- Claim C10 (amended): when a (requirement, computer) pair passes the
reservability, CPU, core, memory, and any requested GPU and NIC checks
and the requirement has no `"disks"` key, the candidate-inclusion test
reads `disks_satisfied`: while the variable is still unbound this raises
`NameError` (first part); once it carries a stale value `b` from an
earlier pair the test silently reuses it, inserting the computer exactly
when `b` is true and no reservation window conflicts (second part); the
third part shows a full run aborting with the `NameError`.  The claim as
stated omitted the GPU/NIC checks from the pass condition. -/
theorem c10_stale_disks_satisfied :
    (∀ (rdata : ReqData) (reservations : List Reservation) (disks : List Disk) (c : Computer),
      computer_reservableOf c.links false = true →
      truthyW (linkScan rdata c.links initLinkOut).cw = true →
      truthyW (linkScan rdata c.links initLinkOut).corew = true →
      truthyW (linkScan rdata c.links initLinkOut).mw = true →
      (linkScan rdata c.links initLinkOut).gpu = true →
      (linkScan rdata c.links initLinkOut).nic = true →
      processPair rdata reservations disks c none none = .error .nameError) ∧
    (∀ (rdata : ReqData) (reservations : List Reservation) (disks : List Disk) (c : Computer)
       (b : Bool),
      computer_reservableOf c.links false = true →
      truthyW (linkScan rdata c.links initLinkOut).cw = true →
      truthyW (linkScan rdata c.links initLinkOut).corew = true →
      truthyW (linkScan rdata c.links initLinkOut).mw = true →
      (linkScan rdata c.links initLinkOut).gpu = true →
      (linkScan rdata c.links initLinkOut).nic = true →
      processPair rdata reservations disks c (some b) none =
        .ok ((if b && !conflictB c.id rdata reservations then
            some ⟨c.id, c.name,
              qadd (qadd ((linkScan rdata c.links initLinkOut).cw.getD 0)
                ((linkScan rdata c.links initLinkOut).corew.getD 0))
                ((linkScan rdata c.links initLinkOut).mw.getD 0)⟩
          else none), some b, none)) ∧
    reservable [] [compFix 1 "c1"] [] [("r1", reqFix none none 0 0)] = .error .nameError := by
  refine ⟨?_, ?_, by decide⟩
  · intro rdata reservations disks c h1 h2 h3 h4 h5 h6
    rw [processPair.eq_def]
    rw [if_neg (by simp [h1])]
    rw [if_neg (by simp [h2, h3, h4])]
    rw [includeStep]
    rw [if_pos (by simp [h2, h3, h4, h5, h6])]
    rfl
  · intro rdata reservations disks c b h1 h2 h3 h4 h5 h6
    rw [processPair.eq_def]
    rw [if_neg (by simp [h1])]
    rw [if_neg (by simp [h2, h3, h4])]
    rw [includeStep]
    rw [if_pos (by simp [h2, h3, h4, h5, h6])]
    cases b with
    | true =>
      by_cases hc : conflictB c.id rdata reservations = true
      · simp [disksUpdate, hc]
      · simp [disksUpdate, hc]
    | false => simp [disksUpdate]

/-- A reservable computer passing the cpu, core and memory checks whose
graphic card ("AMD Radeon") does not match the requested model. -/
def c10Comp : Computer :=
  ⟨1, "c1", [.reservationItem [⟨true⟩], .deviceProcessor [⟨1⟩], .deviceMemory [⟨1⟩],
    .deviceGraphicCard [⟨[⟨"DeviceGraphicCard", "AMD Radeon"⟩]⟩]]⟩

/-- Counterexample to claim C10 as stated: the first (and only) pair of
the scan passes the reservability, CPU, core, and memory checks and its
requirement has no disks key, so the claim predicts an unhandled
`NameError`; but the requested GPU check fails, the inclusion test
short-circuits before reading `disks_satisfied`, and the run completes
normally. -/
theorem c10_counterexample :
    computer_reservableOf c10Comp.links false = true ∧
    truthyW (linkScan (reqFix (some "NVIDIA") none 0 0) c10Comp.links initLinkOut).cw = true ∧
    truthyW (linkScan (reqFix (some "NVIDIA") none 0 0) c10Comp.links initLinkOut).corew = true ∧
    truthyW (linkScan (reqFix (some "NVIDIA") none 0 0) c10Comp.links initLinkOut).mw = true ∧
    (reqFix (some "NVIDIA") none 0 0).disks = none ∧
    reservable [] [c10Comp] [] [("r1", reqFix (some "NVIDIA") none 0 0)] = .ok ([], []) :=
  ⟨by decide, by decide, by decide, by decide, rfl, by decide⟩

/-- Witness for the amended C10 at a concrete pair: with the variable
unbound the pair raises `NameError`; with the stale value `false` the
pair silently reuses it and inserts nothing. -/
theorem c10_witness :
    computer_reservableOf (compFix 1 "c1").links false = true ∧
    truthyW (linkScan (reqFix none none 0 0) (compFix 1 "c1").links initLinkOut).cw = true ∧
    truthyW (linkScan (reqFix none none 0 0) (compFix 1 "c1").links initLinkOut).corew = true ∧
    truthyW (linkScan (reqFix none none 0 0) (compFix 1 "c1").links initLinkOut).mw = true ∧
    (linkScan (reqFix none none 0 0) (compFix 1 "c1").links initLinkOut).gpu = true ∧
    (linkScan (reqFix none none 0 0) (compFix 1 "c1").links initLinkOut).nic = true ∧
    processPair (reqFix none none 0 0) [] [] (compFix 1 "c1") none none =
      .error .nameError ∧
    processPair (reqFix none none 0 0) [] [] (compFix 1 "c1") (some false) none =
      .ok (none, some false, none) :=
  ⟨by decide, by decide, by decide, by decide, by decide, by decide,
    c10_stale_disks_satisfied.1 (reqFix none none 0 0) [] [] (compFix 1 "c1")
      (by decide) (by decide) (by decide) (by decide) (by decide) (by decide),
    by
      have h := c10_stale_disks_satisfied.2.1 (reqFix none none 0 0) [] [] (compFix 1 "c1")
        false (by decide) (by decide) (by decide) (by decide) (by decide) (by decide)
      simpa using h⟩

/-! ### The requirement's disks list is mutated across computers (claim C3) -/

/-- Claim C3 (the code violates it): requirement r1 asks for one disk of
at least 100; computer 1 (one 150 disk) passes and the check pops the
matched entry from the requirement's own list, so computer 2 (one 50
disk) is then checked against an empty list and passes vacuously — it
appears as a candidate although it fails r1's full disk requirement.
The second conjunct shows the pair evaluation returning the requirement's
disks list mutated from one pending entry to none; the third shows
computer 2's check against the full original list failing. -/
theorem c3_requirement_disks_mutated :
    reservable [] [compFix 1 "c1", compFix 2 "c2"]
        [⟨"Computer", 1, 150, "disk1"⟩, ⟨"Computer", 2, 50, "disk2"⟩]
        [("r1", reqFix none (some [⟨100, none⟩]) 0 0)] =
      .ok ([("r1", [⟨1, "c1", 3⟩, ⟨2, "c2", 3⟩])], [("r1", 1, "c1")]) ∧
    processPair (reqFix none (some [⟨100, none⟩]) 0 0) []
        [⟨"Computer", 1, 150, "disk1"⟩, ⟨"Computer", 2, 50, "disk2"⟩]
        (compFix 1 "c1") none (some [⟨100, none⟩]) =
      .ok (some ⟨1, "c1", 3⟩, some true, some []) ∧
    (check_disks 2 [⟨"Computer", 1, 150, "disk1"⟩, ⟨"Computer", 2, 50, "disk2"⟩]
        (sortDiskReqs [⟨100, none⟩])).1 = false ∧
    (2 : Int) ∈ availIds [("r1", [⟨1, "c1", 3⟩, ⟨2, "c2", 3⟩])] "r1" :=
  ⟨by decide, by decide, by decide, by decide⟩

end FilterComputers
